import Mathlib

/-!
# assay-it/tk : arrows over the IO category

A shallow embedding of `assay/types.go`, `http/send/arrows.go` and
`http/recv/arrows.go`.

* A `*IOCat` that the Go code mutates in place and returns is a value that
  every arrow receives and returns.
* A Go run-time panic is the `Except.error` branch of an arrow's result.
* The Go standard library (`net/url`, `fmt`, `encoding/json`, `unicode`) is a
  parameter `Stdlib` of the arrows that call it; `strings` is embedded
  directly, `strings.ToLower` over the `unicode.ToLower` of the parameter.
* `IOCat.sideEffect` is a function value stored in the context.  It is kept as
  a code `σ` together with an interpretation `run : σ → Arrow σ` of the codes,
  so a transport action may read and replace every field of the context,
  itself included.
-/

set_option autoImplicit false

/-- Go run-time panics raised by the embedded code. -/
inductive Panic where
  /-- invalid memory address or nil pointer dereference -/
  | nilDereference
  /-- index out of range -/
  | indexOutOfRange
  /-- a panic raised inside a transport action or a configuration option -/
  | other (msg : String)
  deriving DecidableEq, Repr

/-- Byte sequences (`[]byte`, the content of a `bytes.Buffer`). -/
abbrev Bytes := List UInt8

namespace url

/-- The fields of `net/url.URL` that the arrows read or write. -/
structure URL where
  Scheme : String
  Host : String
  Path : String
  RawPath : String
  RawQuery : String
  Fragment : String
  deriving DecidableEq, Repr

/-- The type `url.Values`, a `map[string][]string`, as an association list. -/
abbrev Values := List (String × List String)

/-- The method `Values.Add`: appends the value to the list stored under the key. -/
def Values.Add : Values → String → String → Values
  | [], k, v => [(k, [v])]
  | (k', vs) :: rest, k, v =>
    if k' = k then (k', vs ++ [v]) :: rest else (k', vs) :: Values.Add rest k v

end url

/-- Go `error` values that reach `IOCat.Fail`. -/
inductive Error where
  /-- the result of `errors.New(msg)` or of `fmt.Errorf` without `%w` -/
  | text (msg : String)
  /-- the result of `fmt.Errorf("msg: %w", cause)` -/
  | wrap (msg : String) (cause : Error)
  /-- the value `&assay.NotSupported{URL: target}` -/
  | notSupported (target : url.URL)
  /-- an error made by a library or by the transport (`net/url`, `encoding/json`, `net/http`) -/
  | external (origin : String) (msg : String)
  deriving DecidableEq, Repr

/-- Go values passed as `interface{}` to `Params`, `Send` and `URL`. -/
inductive Value where
  | null
  | bool (b : Bool)
  | num (n : Int)
  | str (s : String)
  | list (items : List Value)
  | obj (fields : List (String × Value))
  /-- a pointer to a value -/
  | ptr (target : Value)
  /-- a function or channel, which `encoding/json` refuses -/
  | func
  deriving Repr

/-- The standard-library functions called by the arrows. -/
structure Stdlib where
  /-- the function `url.Parse` -/
  Parse : String → Except Error url.URL
  /-- the method `(*url.URL).String` -/
  URLString : url.URL → String
  /-- the method `(*url.URL).Query`, which parses `RawQuery` and drops malformed pairs -/
  Query : url.URL → url.Values
  /-- the method `url.Values.Encode` -/
  Encode : url.Values → String
  /-- the function `url.PathEscape` -/
  PathEscape : String → String
  /-- the function `fmt.Sprintf` applied to string operands -/
  Sprintf : String → List String → String
  /-- the rendering `fmt.Sprintf("%v", v)` of a reflected value -/
  FormatV : Value → String
  /-- the function `json.Marshal` -/
  Marshal : Value → Except Error Bytes
  /-- the function `json.Unmarshal` into a `map[string]string` -/
  UnmarshalMap : Bytes → Except Error (List (String × String))
  /-- the function `unicode.ToLower` on one rune -/
  UnicodeToLower : Char → Char

namespace strings

/-- The function `strings.ToLower`: `unicode.ToLower` mapped over the runes of the string. -/
def ToLower (L : Stdlib) (s : String) : String := String.mk (s.data.map L.UnicodeToLower)

/-- Whether the characters `sub` occur contiguously in `s`. -/
def containsChars (sub : List Char) : List Char → Bool
  | [] => sub.isEmpty
  | c :: cs => (sub.isPrefixOf (c :: cs)) || containsChars sub cs

/-- The function `strings.Contains`. -/
def Contains (s substr : String) : Bool := containsChars substr.data s.data

/-- The function `strings.TrimSuffix`. -/
def TrimSuffix (s suffix : String) : String :=
  if suffix.data.isSuffixOf s.data then String.mk (s.data.take (s.data.length - suffix.data.length))
  else s

end strings

/-- The conversion `[]byte(s)`: the UTF-8 encoding of a string. -/
def bytesOf (s : String) : Bytes := s.data.flatMap String.utf8EncodeChar

namespace assay

/-- The header map `map[string]*string` of an outbound request. A `*string` is
its pointee, `none` for a nil pointer. -/
abbrev HeaderMap := List (String × Option String)

/-- The map read `m[k]` with the comma-ok flag: `none` when the key is absent. -/
def HeaderMap.get : HeaderMap → String → Option (Option String)
  | [], _ => none
  | (k', v) :: rest, k => if k' = k then some v else HeaderMap.get rest k

/-- The map write `m[k] = v`. -/
def HeaderMap.set : HeaderMap → String → Option String → HeaderMap
  | [], k, v => [(k, v)]
  | (k', v') :: rest, k, v =>
    if k' = k then (k, v) :: rest else (k', v') :: HeaderMap.set rest k v

/-- Modelled from the spec: the struct `assay.UpStreamHTTP`, declared outside
`types.go`; the outbound request holds method, target URL, header map and
payload. The payload, an `io.Reader` holding a `*bytes.Buffer`, is the bytes it
yields, `none` for a nil buffer. -/
structure UpStreamHTTP where
  Method : String
  URL : url.URL
  Header : HeaderMap
  Payload : Option Bytes
  deriving DecidableEq, Repr

/-- Modelled from the spec: the struct `assay.DnStreamHTTP`, declared outside
`types.go`; the inbound response holds status code, headers and body. -/
structure DnStreamHTTP where
  StatusCode : Int
  Header : List (String × String)
  Body : Bytes
  deriving DecidableEq, Repr

/-- Modelled from the spec: the struct `assay.IOCatHTTP`, declared outside
`types.go`; `Send` and `Recv` are pointers, `none` when nil. -/
structure IOCatHTTP where
  Send : Option UpStreamHTTP
  Recv : Option DnStreamHTTP
  deriving DecidableEq, Repr

/-- The struct `IOCat`. The field `sideEffect` holds the code of a transport
action, `none` for a nil function value. The field `calls` is a ghost counter,
not a field of the Go struct: the number of times `Unsafe` has invoked the
transport action on this context. -/
structure IOCat (σ : Type) where
  Fail : Option Error
  HTTP : Option IOCatHTTP
  LogLevel : Int
  sideEffect : Option σ
  calls : Nat
  deriving DecidableEq, Repr

/-- The type `Arrow`, `func(*IOCat) *IOCat`. -/
abbrev Arrow (σ : Type) := IOCat σ → Except Panic (IOCat σ)

/-- The type `Config`, `func(*IOCat) *IOCat`. -/
abbrev Config (σ : Type) := IOCat σ → Except Panic (IOCat σ)

/-- The method `IOCat.Unsafe`: calls the stored function value on the context. -/
def IOCat.Unsafe {σ : Type} (run : σ → Arrow σ) (cat : IOCat σ) : Except Panic (IOCat σ) :=
  match cat.sideEffect with
  | none => .error .nilDereference
  | some f =>
    match run f cat with
    | .error p => .error p
    | .ok cat' => .ok { cat' with calls := cat.calls + 1 }

/-- The function `Join`. -/
def Join {σ : Type} : List (Arrow σ) → Arrow σ
  | [], cat => .ok cat
  | f :: rest, cat =>
    match f cat with
    | .error p => .error p
    | .ok cat' => if cat'.Fail.isSome then .ok cat' else Join rest cat'

/-- What the loop of `Join` does with the result of one arrow: it stops on a
panic or a failure and otherwise runs the remaining arrows on the context. -/
def Join.andThen {σ : Type} (first : Except Panic (IOCat σ)) (rest : List (Arrow σ)) :
    Except Panic (IOCat σ) :=
  match first with
  | .error p => .error p
  | .ok mid => if mid.Fail.isSome then .ok mid else Join rest mid

/-- The value `&IOCat{}`. -/
def IOCat.zero {σ : Type} : IOCat σ :=
  { Fail := none, HTTP := none, LogLevel := 0, sideEffect := none, calls := 0 }

/-- The function `IO` of `types.go` (named `IOWith`, as Lean reserves the name). -/
def IOWith {σ : Type} (opts : List (Config σ)) : Except Panic (IOCat σ) :=
  opts.foldlM (fun cat opt => opt cat) IOCat.zero

end assay

namespace url

/-- The map read `v[key]` on `url.Values`: the values stored under the key, none
when the key is absent. -/
def Values.index : Values → String → List String
  | [], _ => []
  | (k', vs) :: rest, k => if k' = k then vs else Values.index rest k

/-- The map write `v[key] = vals` on `url.Values`. -/
def Values.Set : Values → String → List String → Values
  | [], k, vs => [(k, vs)]
  | (k', vs') :: rest, k, vs =>
    if k' = k then (k, vs) :: rest else (k', vs') :: Values.Set rest k vs

end url

namespace send
open assay

/-- One element of `args ...interface{}` of `URL`, by the case of the type
switch in `mkEscapedURL` it reaches. -/
inductive Arg where
  /-- a `*url.URL`, `none` for a nil pointer -/
  | url (v : Option url.URL)
  /-- a `func() string`, by the string the call returns, `none` for a nil function -/
  | thunk (v : Option String)
  /-- any other value -/
  | other (x : Value)

/-- The function `maybeEscape`. -/
def maybeEscape (L : Stdlib) (escape : Bool) (val : String) : String :=
  if escape then L.PathEscape val else val

/-- The function `urlSegment`: renders the value, or its pointee for a pointer. -/
def urlSegment (L : Stdlib) (arg : Value) : String :=
  match arg with
  | .ptr target => L.FormatV target
  | val => L.FormatV val

/-- The loop of `mkEscapedURL` that turns the arguments into the operands of `Sprintf`. -/
def mkEscapedURL.opts (L : Stdlib) (escape : Bool) : List Arg → Except Panic (List String)
  | [] => .ok []
  | x :: rest =>
    let opt : Except Panic String :=
      match x with
      | .url none => .error .nilDereference
      | .url (some v) => .ok (L.URLString { v with Path := strings.TrimSuffix v.Path "/" })
      | .thunk none => .error .nilDereference
      | .thunk (some s) => .ok (maybeEscape L escape s)
      | .other x => .ok (maybeEscape L escape (urlSegment L x))
    match opt with
    | .error p => .error p
    | .ok o =>
      match mkEscapedURL.opts L escape rest with
      | .error p => .error p
      | .ok os => .ok (o :: os)

/-- The function `mkEscapedURL`; the inner result is the pair `(*url.URL, error)`. -/
def mkEscapedURL (L : Stdlib) (escape : Bool) (uri : String) (args : List Arg) :
    Except Panic (Except Error url.URL) :=
  match mkEscapedURL.opts L escape args with
  | .error p => .error p
  | .ok opts => .ok (L.Parse (L.Sprintf uri opts))

/-- The function `mkURL`; `uri[0]` panics on the empty string. -/
def mkURL (L : Stdlib) (uri : String) (args : List Arg) : Except Panic (Except Error url.URL) :=
  match uri.data with
  | [] => .error .indexOutOfRange
  | '!' :: rest => mkEscapedURL L false (String.mk rest) args
  | _ :: _ => mkEscapedURL L true uri args

/-- The function `URL`. -/
def URL {σ : Type} (L : Stdlib) (method uri : String) (args : List Arg) : Arrow σ := fun cat =>
  match mkURL L uri args with
  | .error p => .error p
  | .ok (.error err) => .ok { cat with Fail := some err }
  | .ok (.ok addr) =>
    let http : IOCatHTTP :=
      match cat.HTTP with
      | none => { Send := none, Recv := none }
      | some h => h
    if addr.Scheme = "http" ∨ addr.Scheme = "https" then
      .ok { cat with
            Fail := none
            HTTP := some { http with
              Send := some { Method := method, URL := addr, Header := [], Payload := some [] } } }
    else
      .ok { cat with Fail := some (.notSupported addr), HTTP := some http }

/-- The struct `THeader`. -/
structure THeader where
  string : String
  deriving DecidableEq, Repr

/-- The function `Header`. -/
def Header (header : String) : THeader := { string := header }

/-- The method `THeader.name`. -/
def THeader.name (header : THeader) (L : Stdlib) : String := strings.ToLower L header.string

/-- The method `THeader.Is`. -/
def THeader.Is {σ : Type} (header : THeader) (L : Stdlib) (value : String) : Arrow σ := fun cat =>
  match cat.HTTP with
  | none => .error .nilDereference
  | some http =>
    match http.Send with
    | none => .error .nilDereference
    | some up =>
      .ok { cat with
            HTTP := some { http with
              Send := some { up with Header := up.Header.set (header.name L) (some value) } } }

/-- The method `THeader.Val`; the pointer is its pointee, `none` when nil. -/
def THeader.Val {σ : Type} (header : THeader) (L : Stdlib) (value : Option String) :
    Arrow σ := fun cat =>
  match cat.HTTP with
  | none => .error .nilDereference
  | some http =>
    match http.Send with
    | none => .error .nilDereference
    | some up =>
      .ok { cat with
            HTTP := some { http with
              Send := some { up with Header := up.Header.set (header.name L) value } } }

/-- The function `Params`. -/
def Params {σ : Type} (L : Stdlib) (query : Value) : Arrow σ := fun cat =>
  match L.Marshal query with
  | .error err => .ok { cat with Fail := some err }
  | .ok bytes =>
    match L.UnmarshalMap bytes with
    | .error err => .ok { cat with Fail := some err }
    | .ok req =>
      match cat.HTTP with
      | none => .error .nilDereference
      | some http =>
        match http.Send with
        | none => .error .nilDereference
        | some up =>
          let q := req.foldl (fun q kv => q.Add kv.1 kv.2) (L.Query up.URL)
          .ok { cat with
                HTTP := some { http with
                  Send := some { up with URL := { up.URL with RawQuery := L.Encode q } } } }

/-- The argument `data interface{}` of `Send`, by the case of its type switch. -/
inductive Data where
  /-- a `string` -/
  | string (stream : String)
  /-- a `[]byte` -/
  | bytes (stream : Bytes)
  /-- an `io.Reader`, by the bytes it yields -/
  | reader (stream : Bytes)
  /-- any other value -/
  | other (data : Value)

/-- The function `encodeJSON`; the result is the pair `(*bytes.Buffer, error)`. -/
def encodeJSON (L : Stdlib) (data : Value) : Option Bytes × Option Error :=
  match L.Marshal data with
  | .ok json => (some json, none)
  | .error err => (some [], some err)

/-- The function `encodeForm`. -/
def encodeForm (L : Stdlib) (data : Value) : Option Bytes × Option Error :=
  match L.Marshal data with
  | .error err => (none, some err)
  | .ok bin =>
    match L.UnmarshalMap bin with
    | .error err => (none, some (.wrap "encode application/x-www-form-urlencoded" err))
    | .ok req =>
      let payload : url.Values := req.foldl (fun p kv => p.Set kv.1 [kv.2]) []
      (some (bytesOf (L.Encode payload)), none)

/-- The function `encode`. -/
def encode (L : Stdlib) (content : String) (data : Value) : Option Bytes × Option Error :=
  if strings.Contains content "json" then encodeJSON L data
  else if strings.Contains content "www-form" then encodeForm L data
  else (none, some (.text ("unsupported Content-Type " ++ content)))

/-- The function `Send`. -/
def Send {σ : Type} (L : Stdlib) (data : Data) : Arrow σ := fun cat =>
  match cat.HTTP with
  | none => .error .nilDereference
  | some http =>
    match http.Send with
    | none => .error .nilDereference
    | some up =>
      match up.Header.get "content-type" with
      | none => .ok { cat with Fail := some (.text "unknown Content-Type") }
      | some content =>
        match data with
        | .string stream =>
          .ok { cat with
                HTTP := some { http with Send := some { up with Payload := some (bytesOf stream) } } }
        | .bytes stream =>
          .ok { cat with HTTP := some { http with Send := some { up with Payload := some stream } } }
        | .reader stream =>
          .ok { cat with HTTP := some { http with Send := some { up with Payload := some stream } } }
        | .other data =>
          match content with
          | none => .error .nilDereference
          | some c =>
            .ok { cat with
                  Fail := (encode L c data).2
                  HTTP := some { http with Send := some { up with Payload := (encode L c data).1 } } }

/-- The function `GET`. -/
def GET {σ : Type} (L : Stdlib) (uri : String) (args : List Arg) : Arrow σ := URL L "GET" uri args

/-- The function `POST`. -/
def POST {σ : Type} (L : Stdlib) (uri : String) (args : List Arg) : Arrow σ := URL L "POST" uri args

/-- The function `PUT`. -/
def PUT {σ : Type} (L : Stdlib) (uri : String) (args : List Arg) : Arrow σ := URL L "PUT" uri args

/-- The function `DELETE`. -/
def DELETE {σ : Type} (L : Stdlib) (uri : String) (args : List Arg) : Arrow σ :=
  URL L "DELETE" uri args

/-- The function `Accept`. -/
def Accept : THeader := Header "Accept"

/-- The function `AcceptJSON`. -/
def AcceptJSON {σ : Type} (L : Stdlib) : Arrow σ := Accept.Is L "application/json"

/-- The function `AcceptForm`. -/
def AcceptForm {σ : Type} (L : Stdlib) : Arrow σ :=
  Accept.Is L "application/x-www-form-urlencoded"

/-- The function `Content`. -/
def Content : THeader := Header "Content-Type"

/-- The function `ContentJSON`. -/
def ContentJSON {σ : Type} (L : Stdlib) : Arrow σ := Content.Is L "application/json"

/-- The function `ContentForm`. -/
def ContentForm {σ : Type} (L : Stdlib) : Arrow σ :=
  Content.Is L "application/x-www-form-urlencoded"

/-- The function `KeepAlive`. -/
def KeepAlive {σ : Type} (L : Stdlib) : Arrow σ := (Header "Connection").Is L "keep-alive"

/-- The function `Authorization`. -/
def Authorization : THeader := Header "Authorization"

end send

namespace recv
open assay

/-- The function `hasCode`. -/
def hasCode : List Int → Int → Bool
  | [], _ => false
  | a :: rest, e => if a = e then true else hasCode rest e

/-- The function `Code`. -/
def Code {σ : Type} (run : σ → Arrow σ) (code : List Int) : Arrow σ := fun cat =>
  match cat.Unsafe run with
  | .error p => .error p
  | .ok cat =>
    if cat.Fail.isSome then .ok cat
    else
      match cat.HTTP with
      | none => .error .nilDereference
      | some http =>
        match http.Recv with
        | none => .error .nilDereference
        | some resp =>
          if !hasCode code resp.StatusCode then .ok { cat with Fail := some (.text "do not match") }
          else .ok cat

end recv

/-! ## Specification-side notions -/

namespace Spec
open assay

/-- The left-to-right fold of a sequence of arrows, with no failure check:
each arrow receives the context returned by the one before it. -/
def fold {σ : Type} : List (Arrow σ) → Arrow σ
  | [], cat => .ok cat
  | f :: rest, cat =>
    match f cat with
    | .error p => .error p
    | .ok cat' => fold rest cat'

/-- The arrows, applied left to right from `cat`, all return and none of the
returned contexts has failure set; the last one returned is `last` (`cat`
itself for the empty sequence). -/
def cleanRun {σ : Type} : List (Arrow σ) → IOCat σ → IOCat σ → Prop
  | [], cat, last => last = cat
  | f :: rest, cat, last => ∃ mid, f cat = .ok mid ∧ mid.Fail = none ∧ cleanRun rest mid last

/-- Two header names differ at most in the case of their letters: they have as
many runes, and rune by rune `unicode.ToLower` gives the same letter. -/
def sameUpToCase (L : Stdlib) : List Char → List Char → Bool
  | [], [] => true
  | x :: xs, y :: ys => (L.UnicodeToLower x == L.UnicodeToLower y) && sameUpToCase L xs ys
  | _, _ => false

/-- The library fact that `unicode.ToLower` lowers an ASCII rune as the ASCII
table does: a capital to its small letter, any other rune to itself. -/
def lowersASCII (L : Stdlib) : Prop :=
  ∀ c : Char, c.toNat < 128 → L.UnicodeToLower c = c.toLower

/-- The result of an arrow with the failure field left out of the comparison:
a panic is kept, a returned context has its failure erased. -/
def eraseFail {σ : Type} (r : Except Panic (IOCat σ)) : Except Panic (IOCat σ) :=
  match r with
  | .error p => .error p
  | .ok c => .ok { c with Fail := none }

/-- The inbound response of a context, when there is one. -/
def inbound {σ : Type} (cat : IOCat σ) : Option DnStreamHTTP :=
  match cat.HTTP with
  | none => none
  | some http => http.Recv

/-- The text of an argument of `URL` before escaping: the string a function
returns, the rendering of any other value. -/
def rendering (L : Stdlib) : send.Arg → String
  | .thunk (some s) => s
  | .other x => send.urlSegment L x
  | _ => ""

/-- The segment that the spec substitutes for an argument of `URL`: a URL
argument is its text with the trailing slash of the path trimmed, never
escaped; any other argument is percent-escaped when `escape` holds and taken
as it is otherwise. -/
def operand (L : Stdlib) (escape : Bool) : send.Arg → String
  | .url (some v) => L.URLString { v with Path := strings.TrimSuffix v.Path "/" }
  | .url none => ""
  | a => if escape then L.PathEscape (rendering L a) else rendering L a

/-- The argument is not a nil pointer or a nil function value. -/
def present : send.Arg → Prop
  | .url none => False
  | .thunk none => False
  | _ => True

/-- The values that a flat map adds under the key `k`, in the order of the map. -/
def added (req : List (String × String)) (k : String) : List String :=
  (req.filter (fun kv => kv.1 == k)).map (fun kv => kv.2)

/-- The outbound request of a context, when there is one. -/
def outbound {σ : Type} (cat : IOCat σ) : Option UpStreamHTTP :=
  match cat.HTTP with
  | none => none
  | some http => http.Send

end Spec

/-! ## Fixtures: the mock server of `arrows_test.go` and a transport over it -/

namespace fixture
open assay

/-- The handler of `mock()` in `arrows_test.go`: the response by request path. -/
def mock (path : String) : DnStreamHTTP :=
  if path = "/json" then
    { StatusCode := 200
      Header := [("Content-Type", "application/json")]
      Body := bytesOf "\x7b\"site\": \"example.com\"\x7d" }
  else if path = "/form" then
    { StatusCode := 200
      Header := [("Content-Type", "application/x-www-form-urlencoded")]
      Body := bytesOf "site=example.com" }
  else
    { StatusCode := 400, Header := [], Body := [] }

/-- Codes of transport actions. -/
inductive Transport where
  /-- sends the outbound request to the mock server -/
  | pool
  /-- a server that answers each call with the next status of the list -/
  | script (answers : List Int)
  deriving DecidableEq, Repr

/-- Modelled from the spec: the transport action bound by `http.Default()`,
declared outside `src/`; it performs the exchange and populates the inbound
response, and a transport error populates failure. -/
def run : Transport → Arrow Transport
  | .pool, cat =>
    match cat.HTTP with
    | none => .ok { cat with Fail := some (.external "net/http" "no request") }
    | some http =>
      match http.Send with
      | none => .ok { cat with Fail := some (.external "net/http" "no request") }
      | some up => .ok { cat with HTTP := some { http with Recv := some (mock up.URL.Path) } }
  | .script [], cat => .ok { cat with Fail := some (.external "net/http" "connection refused") }
  | .script (status :: rest), cat =>
    let http : IOCatHTTP :=
      match cat.HTTP with
      | none => { Send := none, Recv := none }
      | some h => h
    .ok { cat with
          HTTP := some { http with Recv := some { StatusCode := status, Header := [], Body := [] } }
          sideEffect := some (.script rest) }

/-- Modelled from the spec: the configuration option `http.Default()`, declared
outside `src/`; it binds the default transport. -/
def Default : Config Transport := fun cat => .ok { cat with sideEffect := some .pool }

/-- Expands the `%v` verbs of a format with the operands, as `fmt.Sprintf` does
for string operands. -/
def sprintfChars : List Char → List String → List Char
  | [], _ => []
  | '%' :: 'v' :: rest, o :: os => o.data ++ sprintfChars rest os
  | '%' :: 'v' :: rest, [] => "%!v(MISSING)".data ++ sprintfChars rest []
  | c :: rest, os => c :: sprintfChars rest os

/-- Splits the characters at the first occurrence of `sep`. -/
def splitAt (sep : Char) : List Char → List Char × Option (List Char)
  | [] => ([], none)
  | c :: cs =>
    if c = sep then ([], some cs)
    else ((splitAt sep cs).1.cons c, (splitAt sep cs).2)

/-- Whether `url.PathEscape` escapes the byte: all but letters, digits, the
marks `-_.~` and the reserved characters `$&+:=@`. -/
def shouldEscape (c : Nat) : Bool :=
  if (97 ≤ c ∧ c ≤ 122) ∨ (65 ≤ c ∧ c ≤ 90) ∨ (48 ≤ c ∧ c ≤ 57) then false
  else if c = 45 ∨ c = 95 ∨ c = 46 ∨ c = 126 then false
  else if c = 36 ∨ c = 38 ∨ c = 43 ∨ c = 58 ∨ c = 61 ∨ c = 64 then false
  else true

/-- Whether the path of a URL is written with the byte escaped: all but
letters, digits, the marks `-_.~` and the reserved characters `$&+,/:;=@`. -/
def shouldEscapePath (c : Nat) : Bool :=
  if (97 ≤ c ∧ c ≤ 122) ∨ (65 ≤ c ∧ c ≤ 90) ∨ (48 ≤ c ∧ c ≤ 57) then false
  else if c = 45 ∨ c = 95 ∨ c = 46 ∨ c = 126 then false
  else if c = 36 ∨ c = 38 ∨ c = 43 ∨ c = 44 ∨ c = 47 ∨ c = 58 ∨ c = 59 ∨ c = 61 ∨ c = 64 then false
  else true

/-- The upper-case hexadecimal digit of a number below sixteen. -/
def upperhex (n : Nat) : Char := "0123456789ABCDEF".data.getD n '0'

/-- Writes `%XX` for each byte of the string that `should` selects. -/
def escapeWith (should : Nat → Bool) (s : String) : String :=
  String.mk ((bytesOf s).flatMap (fun b =>
    if should b.toNat then ['%', upperhex (b.toNat / 16), upperhex (b.toNat % 16)]
    else [Char.ofNat b.toNat]))

/-- The function `url.PathEscape`: each byte that must be escaped becomes `%XX`. -/
def pathEscape (s : String) : String := escapeWith shouldEscape s

/-- The value of a hexadecimal digit. -/
def unhex (c : Char) : Option Nat :=
  if 48 ≤ c.toNat ∧ c.toNat ≤ 57 then some (c.toNat - 48)
  else if 97 ≤ c.toNat ∧ c.toNat ≤ 102 then some (c.toNat - 87)
  else if 65 ≤ c.toNat ∧ c.toNat ≤ 70 then some (c.toNat - 55)
  else none

/-- Decodes the escapes `%XX` of a path, for escapes of ASCII bytes; `none` for
a `%` that two hexadecimal digits do not follow. -/
def unescape : List Char → Option (List Char)
  | [] => some []
  | '%' :: hi :: lo :: rest =>
    match unhex hi, unhex lo, unescape rest with
    | some a, some b, some r => some (Char.ofNat (16 * a + b) :: r)
    | _, _, _ => none
  | c :: rest =>
    if c = '%' then none
    else
      match unescape rest with
      | some r => some (c :: r)
      | none => none

/-- Whether the text is a valid writing of a path: every byte is one that
needs no escaping, a `%`, or one of the characters `!$&'()*+,;=:@[]`. -/
def validEncoded (s : String) : Bool :=
  (bytesOf s).all (fun b =>
    [33, 36, 37, 38, 39, 40, 41, 42, 43, 44, 58, 59, 61, 64, 91, 93].contains b.toNat ||
      !shouldEscapePath b.toNat)

/-- The method `(*url.URL).EscapedPath`: the raw path when it is a valid writing
of the path, the escaped path otherwise. -/
def escapedPath (u : url.URL) : String :=
  if u.RawPath ≠ "" ∧ validEncoded u.RawPath = true ∧
      unescape u.RawPath.data = some u.Path.data then u.RawPath
  else escapeWith shouldEscapePath u.Path

/-- The method `(*url.URL).String` on absolute URLs with a host and without a
fragment. -/
def urlString (u : url.URL) : String :=
  u.Scheme ++ "://" ++ u.Host ++ escapedPath u ++
    (if u.RawQuery = "" then "" else "?" ++ u.RawQuery)

/-- The function `url.Parse` on targets of the form `scheme://host/path?query#fragment`
without user information, with escapes of ASCII bytes in the path only, and on
strings that start with a colon, which have no scheme; any other string is
refused. The path is decoded, and the raw path is kept when it is not the
default writing of the decoded path. -/
def parse (raw : String) : Except Error url.URL :=
  let (noFrag, frag) := splitAt '#' raw.data
  let (noQuery, query) := splitAt '?' noFrag
  match splitAt ':' noQuery with
  | ([], some _) =>
    .error (.external "net/url" ("parse \"" ++ raw ++ "\": missing protocol scheme"))
  | (scheme, some ('/' :: '/' :: rest)) =>
    let host := rest.takeWhile (fun c => c != '/')
    let path := rest.dropWhile (fun c => c != '/')
    match unescape path with
    | none => .error (.external "net/url" ("parse \"" ++ raw ++ "\": invalid URL escape"))
    | some decoded =>
      .ok { Scheme := String.mk scheme
            Host := String.mk host
            Path := String.mk decoded
            RawPath :=
              if escapeWith shouldEscapePath (String.mk decoded) = String.mk path then ""
              else String.mk path
            RawQuery := String.mk (query.getD [])
            Fragment := String.mk (frag.getD []) }
  | _ => .error (.external "net/url" ("parse " ++ raw))

/-- Splits the characters at every occurrence of `sep`. -/
def splitOn (sep : Char) : List Char → List (List Char)
  | [] => [[]]
  | c :: cs =>
    if c = sep then [] :: splitOn sep cs
    else
      match splitOn sep cs with
      | [] => [[c]]
      | w :: ws => (c :: w) :: ws

/-- The function `url.ParseQuery` on queries without escapes, `+` or `;`. -/
def parseQuery (raw : String) : url.Values :=
  (splitOn '&' raw.data).foldl (fun q pair =>
    if pair.isEmpty then q
    else q.Add (String.mk (splitAt '=' pair).1) (String.mk ((splitAt '=' pair).2.getD []))) []

/-- The pairs `key=value` of a `url.Values`, in the order of the list. -/
def encodePairs (v : url.Values) : List String :=
  v.flatMap (fun kvs => kvs.2.map (fun val => kvs.1 ++ "=" ++ val))

/-- The method `url.Values.Encode` on values whose keys are in increasing order
and whose keys and values need no escaping. -/
def encodeValues (v : url.Values) : String := "&".intercalate (encodePairs v)

/-- A stand-in for the standard library that agrees with Go on the inputs of the
examples below: `Parse` on absolute URLs without user information, with
escapes of ASCII bytes in the path only, and on strings that start with a
colon; `URLString` on absolute URLs with a host and without a fragment; `Query`
and `Encode` on queries whose keys are in
increasing order and whose keys and values consist of letters, digits and
`-_.~`; `PathEscape` on every string; `Sprintf` on formats whose only verb is
`%v`, with no more operands than verbs; `FormatV` on strings, booleans and an
untyped `nil`; `Marshal` on an untyped `nil`, on function values and on the two
objects listed; `UnmarshalMap` on the JSON texts listed; `UnicodeToLower` on
ASCII characters. -/
def lib : Stdlib where
  Parse := parse
  URLString := urlString
  Query := fun u => parseQuery u.RawQuery
  Encode := encodeValues
  PathEscape := pathEscape
  Sprintf := fun format operands => String.mk (sprintfChars format.data operands)
  FormatV := fun v =>
    match v with
    | .str s => s
    | .bool true => "true"
    | .bool false => "false"
    | _ => "<invalid reflect.Value>"
  Marshal := fun v =>
    match v with
    | .null => .ok (bytesOf "null")
    | .obj [("site", .str "example.com")] => .ok (bytesOf "\x7b\"site\":\"example.com\"\x7d")
    | .obj [("site", .obj [("host", .str "example.com")])] =>
      .ok (bytesOf "\x7b\"site\":\x7b\"host\":\"example.com\"\x7d\x7d")
    | _ => .error (.external "encoding/json" "json: unsupported type")
  UnmarshalMap := fun b =>
    if b = bytesOf "null" then .ok []
    else if b = bytesOf "\x7b\"site\":\"example.com\"\x7d" then .ok [("site", "example.com")]
    else .error (.external "encoding/json" "json: cannot unmarshal")
  UnicodeToLower := Char.toLower

/-- A context that already carries a failure and an outbound request. -/
def failed : IOCat Transport :=
  { Fail := some (.text "earlier failure")
    HTTP := some
      { Send := some
          { Method := "GET"
            URL := { Scheme := "http", Host := "example.com", Path := "/json", RawPath := "",
                     RawQuery := "", Fragment := "" }
            Header := []
            Payload := some [] }
        Recv := none }
    LogLevel := 0
    sideEffect := some .pool
    calls := 0 }

/-- The context `IO(Default())` of the tests. -/
def fresh : IOCat Transport :=
  { Fail := none, HTTP := none, LogLevel := 0, sideEffect := some .pool, calls := 0 }

/-- The context after `GET("http://example.com" + path)` and `AcceptJSON()` on `fresh`. -/
def asked (path : String) : IOCat Transport :=
  { Fail := none
    HTTP := some
      { Send := some
          { Method := "GET"
            URL := { Scheme := "http", Host := "example.com", Path := path, RawPath := "",
                     RawQuery := "", Fragment := "" }
            Header := [("accept", some "application/json")]
            Payload := some [] }
        Recv := none }
    LogLevel := 0
    sideEffect := some .pool
    calls := 0 }

/-- The context `asked path` after the transport has answered it `n` times. -/
def answered (path : String) (n : Nat) : IOCat Transport :=
  { asked path with
    HTTP := some { Send := Spec.outbound (asked path), Recv := some (mock path) }
    calls := n }

/-- The context `asked path` after a header binding of the content type. -/
def typed (path : String) (content : Option String) : IOCat Transport :=
  { asked path with
    HTTP := some
      { Send := some
          { Method := "GET"
            URL := { Scheme := "http", Host := "example.com", Path := path, RawPath := "",
                     RawQuery := "", Fragment := "" }
            Header := [("accept", some "application/json"), ("content-type", content)]
            Payload := some [] }
        Recv := none } }

/-- The context after `GET("http://example.com/json?a=1")` on `fresh`. -/
def queried : IOCat Transport :=
  { fresh with
    HTTP := some
      { Send := some
          { Method := "GET"
            URL := { Scheme := "http", Host := "example.com", Path := "/json", RawPath := "",
                     RawQuery := "a=1", Fragment := "" }
            Header := []
            Payload := some [] }
        Recv := none } }

end fixture

/-! ## Composition core: `Join` -/

section JoinLemmas
open assay

variable {σ : Type}

theorem Join_nil (cat : IOCat σ) : Join ([] : List (Arrow σ)) cat = .ok cat := rfl

theorem Join_cons_panic (f : Arrow σ) (rest : List (Arrow σ)) (cat : IOCat σ) (p : Panic)
    (h : f cat = .error p) : Join (f :: rest) cat = .error p := by
  simp [Join, h]

theorem Join_cons_failed (f : Arrow σ) (rest : List (Arrow σ)) (cat mid : IOCat σ)
    (h : f cat = .ok mid) (hfail : mid.Fail ≠ none) : Join (f :: rest) cat = .ok mid := by
  have : mid.Fail.isSome = true := Option.isSome_iff_ne_none.mpr hfail
  simp [Join, h, this]

theorem Join_cons_clean (f : Arrow σ) (rest : List (Arrow σ)) (cat mid : IOCat σ)
    (h : f cat = .ok mid) (hfail : mid.Fail = none) : Join (f :: rest) cat = Join rest mid := by
  simp [Join, h, hfail]

theorem Join_cons_eq (f : Arrow σ) (rest : List (Arrow σ)) (cat : IOCat σ) :
    Join (f :: rest) cat = Join.andThen (f cat) rest := by
  cases h : f cat <;> simp [Join, Join.andThen, h]

theorem Join_single (f : Arrow σ) (cat : IOCat σ) : Join [f] cat = f cat := by
  cases h : f cat with
  | error p => simp [Join, h]
  | ok mid => cases hm : mid.Fail.isSome <;> simp [Join, h, hm]

theorem andThen_andThen (first : Except Panic (IOCat σ)) (xs ys : List (Arrow σ))
    (happ : ∀ mid : IOCat σ, mid.Fail = none →
      Join (xs ++ ys) mid = Join.andThen (Join xs mid) ys) :
    Join.andThen (Join.andThen first xs) ys = Join.andThen first (xs ++ ys) := by
  cases first with
  | error p => rfl
  | ok mid =>
    cases hm : mid.Fail with
    | some e => simp [Join.andThen, hm]
    | none => simp [Join.andThen, hm, happ mid hm]

/-- Splitting a `Join` at any point of a context that has not failed. -/
theorem Join_append_clean (xs ys : List (Arrow σ)) (cat : IOCat σ) (h : cat.Fail = none) :
    Join (xs ++ ys) cat = Join.andThen (Join xs cat) ys := by
  induction xs generalizing cat with
  | nil => simp [Join, Join.andThen, h]
  | cons f rest ih =>
    rw [List.cons_append, Join_cons_eq, Join_cons_eq]
    exact (andThen_andThen (f cat) rest ys (fun mid hm => ih mid hm)).symm

/-- Splitting a `Join` after a non-empty group, from any context. -/
theorem Join_append_nonempty (f : Arrow σ) (xs ys : List (Arrow σ)) (cat : IOCat σ) :
    Join ((f :: xs) ++ ys) cat = Join.andThen (Join (f :: xs) cat) ys := by
  rw [List.cons_append, Join_cons_eq, Join_cons_eq]
  exact (andThen_andThen (f cat) xs ys (fun mid hm => Join_append_clean xs ys mid hm)).symm

end JoinLemmas

section JoinClaims
open assay

variable {σ : Type}

theorem cleanRun_Join (pre : List (Arrow σ)) (cat last : IOCat σ)
    (h : Spec.cleanRun pre cat last) (rest : List (Arrow σ)) :
    Join (pre ++ rest) cat = Join rest last := by
  induction pre generalizing cat with
  | nil =>
    have hl : last = cat := h
    simp [hl]
  | cons g more ih =>
    obtain ⟨mid, hg, hmid, hrest⟩ := h
    rw [List.cons_append, Join_cons_clean g _ cat mid hg hmid]
    exact ih mid hrest

theorem cleanRun_fold (pre : List (Arrow σ)) (cat last : IOCat σ)
    (h : Spec.cleanRun pre cat last) : Spec.fold pre cat = .ok last := by
  induction pre generalizing cat with
  | nil =>
    have hl : last = cat := h
    simp [hl, Spec.fold]
  | cons g more ih =>
    obtain ⟨mid, hg, _, hrest⟩ := h
    simp [Spec.fold, hg, ih mid hrest]

/-- C1. `Join` is fail-fast. When the arrows before arrow `f` all return
contexts without failure, ending at `last`, and `f` returns a context `r` with
failure set, then `Join` over the whole sequence returns exactly `r`, whatever
the arrows after `f` are: they are not applied. When no arrow sets failure,
`Join` returns the left-to-right fold of all the arrows. -/
theorem Join_fail_fast (pre : List (Arrow σ)) (cat last : IOCat σ)
    (h : Spec.cleanRun pre cat last) :
    (∀ (f : Arrow σ) (post : List (Arrow σ)) (r : IOCat σ),
        f last = .ok r → r.Fail ≠ none → Join (pre ++ f :: post) cat = .ok r) ∧
    Join pre cat = Spec.fold pre cat ∧ Join pre cat = .ok last := by
  refine ⟨?_, ?_, ?_⟩
  · intro f post r hf hr
    rw [cleanRun_Join pre cat last h]
    exact Join_cons_failed f post last r hf hr
  · have h1 := cleanRun_Join pre cat last h []
    rw [List.append_nil] at h1
    rw [h1, cleanRun_fold pre cat last h, Join_nil]
  · have h1 := cleanRun_Join pre cat last h []
    rw [List.append_nil] at h1
    rw [h1, Join_nil]

/-- C2. `Join` is associative: for all arrows `a`, `b`, `c` and every input
context, `Join(Join(a,b),c)`, `Join(a,Join(b,c))` and `Join(a,b,c)` return the
same result. -/
theorem Join_assoc (a b c : Arrow σ) (cat : IOCat σ) :
    Join [Join [a, b], c] cat = Join [a, b, c] cat ∧
    Join [a, Join [b, c]] cat = Join [a, b, c] cat := by
  constructor
  · have h := Join_append_nonempty a [b] [c] cat
    rw [Join_cons_eq (Join [a, b]) [c] cat]
    exact h.symm
  · rw [Join_cons_eq a [Join [b, c]] cat, Join_cons_eq a [b, c] cat]
    cases a cat with
    | error p => rfl
    | ok mid => simp [Join.andThen, Join_single]

end JoinClaims

section JoinGroups
open assay

variable {σ : Type}

theorem andThen_congr (first : Except Panic (IOCat σ)) (xs ys : List (Arrow σ))
    (h : ∀ mid : IOCat σ, mid.Fail = none → Join xs mid = Join ys mid) :
    Join.andThen first xs = Join.andThen first ys := by
  cases first with
  | error p => rfl
  | ok mid =>
    cases hm : mid.Fail with
    | some e => simp [Join.andThen, hm]
    | none => simp [Join.andThen, hm, h mid hm]

theorem Join_groups_clean (groups : List (List (Arrow σ))) (cat : IOCat σ)
    (h : cat.Fail = none) : Join (groups.map Join) cat = Join groups.flatten cat := by
  induction groups generalizing cat with
  | nil => rfl
  | cons g gs ih =>
    rw [List.map_cons, List.flatten_cons, Join_cons_eq, Join_append_clean g gs.flatten cat h]
    exact andThen_congr (Join g cat) _ _ (fun mid hm => ih mid hm)

/-- C1 at the pipeline of `TestCodeNoMatch`, followed by one more arrow: `GET`
and `AcceptJSON` run clean, `Code(200)` fails against the answer 400, and the
arrow after it is not applied. -/
theorem Join_fail_fast_witness :
    Spec.cleanRun [send.GET fixture.lib "http://example.com/other" [], send.AcceptJSON fixture.lib]
        fixture.fresh (fixture.asked "/other") ∧
    Join ([send.GET fixture.lib "http://example.com/other" [], send.AcceptJSON fixture.lib] ++
          recv.Code fixture.run [200] :: [send.KeepAlive fixture.lib]) fixture.fresh =
      .ok { fixture.answered "/other" 1 with Fail := some (.text "do not match") } :=
  have hclean : Spec.cleanRun
      [send.GET fixture.lib "http://example.com/other" [], send.AcceptJSON fixture.lib]
      fixture.fresh (fixture.asked "/other") := ⟨_, rfl, rfl, _, rfl, rfl, rfl⟩
  ⟨hclean, (Join_fail_fast _ _ _ hclean).1 (recv.Code fixture.run [200]) [send.KeepAlive fixture.lib] _ rfl
    (by decide)⟩

/-- C3, as the spec states it, fails: with an empty first group and an input
context whose failure is already set, the nested `Join` returns the input
untouched while the flat `Join` applies the first arrow to it. -/
theorem Join_nested_ne_flat :
    Join (([[], [send.KeepAlive fixture.lib]] : List (List (Arrow fixture.Transport))).map Join)
        fixture.failed = .ok fixture.failed ∧
    Join ([[], [send.KeepAlive fixture.lib]] : List (List (Arrow fixture.Transport))).flatten
        fixture.failed ≠ .ok fixture.failed := by
  refine ⟨rfl, ?_⟩
  intro h
  have h2 := Except.ok.inj h
  exact absurd h2 (by decide)

/-- C3, amended. Nested `Join` equals flat `Join` for every list of groups and
every input context, provided the input has no failure set, or the first group
is not empty, or there is no arrow at all. -/
theorem Join_nested_eq_flat (groups : List (List (Arrow σ))) (cat : IOCat σ)
    (h : cat.Fail = none ∨ (∃ f g rest, groups = (f :: g) :: rest) ∨ groups.flatten = []) :
    Join (groups.map Join) cat = Join groups.flatten cat := by
  rcases h with h | ⟨f, g, rest, rfl⟩ | h
  · exact Join_groups_clean groups cat h
  · rw [List.map_cons, List.flatten_cons, Join_cons_eq, Join_append_nonempty]
    exact andThen_congr _ _ _ (fun mid hm => Join_groups_clean rest mid hm)
  · cases hc : cat.Fail with
    | none => exact Join_groups_clean groups cat hc
    | some e =>
      rw [h]
      cases groups with
      | nil => rfl
      | cons g gs =>
        have hg : g = [] := by
          rw [List.flatten_cons] at h
          exact (List.append_eq_nil.mp h).1
        subst hg
        rw [List.map_cons, Join_cons_eq]
        simp [Join, Join.andThen, hc]

/-- C3, amended, at three groups with a non-empty first group and an empty
middle group, on a context whose failure is already set. -/
theorem Join_nested_eq_flat_witness :
    Join (([[send.KeepAlive fixture.lib], [], [send.AcceptJSON fixture.lib]] :
        List (List (Arrow fixture.Transport))).map Join) fixture.failed =
      Join ([[send.KeepAlive fixture.lib], [], [send.AcceptJSON fixture.lib]] :
        List (List (Arrow fixture.Transport))).flatten fixture.failed :=
  Join_nested_eq_flat _ fixture.failed (Or.inr (Or.inl ⟨_, _, _, rfl⟩))

end JoinGroups

/-! ## Failure and the arrows of `send` and `recv` -/

section Failure
open assay

variable {σ : Type}

/-- C4, as the spec states it, fails: the `URL` arrow applied to a context whose
failure is set returns a context without failure when the target is a valid
`http` URL. -/
theorem URL_clears_failure :
    fixture.failed.Fail = some (.text "earlier failure") ∧
    ∃ c, send.URL fixture.lib "GET" "http://example.com/json" [] fixture.failed = .ok c ∧
      c.Fail = none :=
  ⟨rfl, _, rfl, rfl⟩

/-- C4, amended. Failure is sticky where an arrow does not assign it. On a
context whose failure is already `e`: `Header(..).Is` and `Header(..).Val`
return failure `e`; `Params` returns failure `e` when the query serializes to
a flat string map; `Send` returns failure `e` for a string, byte or stream
payload when a content type is bound; `Code` returns failure `e` when the
transport action returns it. `URL` assigns failure from its own outcome, the
same as on a context without failure. -/
theorem failure_sticky_unless_assigned (L : Stdlib) (run : σ → Arrow σ) (cat : IOCat σ)
    (e : Error) (h : cat.Fail = some e) :
    (∀ (header : send.THeader) (value : String) (c : IOCat σ),
        header.Is L value cat = .ok c → c.Fail = some e) ∧
    (∀ (header : send.THeader) (value : Option String) (c : IOCat σ),
        header.Val L value cat = .ok c → c.Fail = some e) ∧
    (∀ (query : Value) (bytes : Bytes) (req : List (String × String)) (c : IOCat σ),
        L.Marshal query = .ok bytes → L.UnmarshalMap bytes = .ok req →
        send.Params L query cat = .ok c → c.Fail = some e) ∧
    (∀ (data : send.Data) (up : UpStreamHTTP) (content : Option String) (c : IOCat σ),
        (∀ v, data ≠ .other v) → Spec.outbound cat = some up →
        up.Header.get "content-type" = some content →
        send.Send L data cat = .ok c → c.Fail = some e) ∧
    (∀ (code : List Int) (f : σ) (mid c : IOCat σ),
        cat.sideEffect = some f → run f cat = .ok mid → mid.Fail = some e →
        recv.Code run code cat = .ok c → c.Fail = some e) ∧
    (∀ (method uri : String) (args : List send.Arg),
        send.URL L method uri args cat = send.URL L method uri args { cat with Fail := none }) := by
  refine ⟨?_, ?_, ?_, ?_, ?_, ?_⟩
  · intro header value c hc
    unfold send.THeader.Is at hc
    split at hc
    · cases hc
    · split at hc
      · cases hc
      · cases hc; exact h
  · intro header value c hc
    unfold send.THeader.Val at hc
    split at hc
    · cases hc
    · split at hc
      · cases hc
      · cases hc; exact h
  · intro query bytes req c hm hu hc
    unfold send.Params at hc
    simp only [hm, hu] at hc
    split at hc
    · cases hc
    · split at hc
      · cases hc
      · cases hc; exact h
  · intro data up content c hraw hout hct hc
    unfold Spec.outbound at hout
    unfold send.Send at hc
    split at hc
    · cases hc
    · rename_i http hhttp
      rw [hhttp] at hout
      simp only at hout
      rw [hout] at hc
      simp only [hct] at hc
      cases data with
      | string s => cases hc; exact h
      | bytes s => cases hc; exact h
      | reader s => cases hc; exact h
      | other v => exact absurd rfl (hraw v)
  · intro code f mid c hf hrun hmid hc
    unfold recv.Code IOCat.Unsafe at hc
    simp only [hf, hrun, hmid, Option.isSome_some, if_true] at hc
    cases hc
    rfl
  · intro method uri args
    unfold send.URL
    cases mkres : send.mkURL L uri args with
    | error p => rfl
    | ok res =>
      cases res with
      | error err => rfl
      | ok addr => rfl

/-- C4, amended, at a context with failure and an outbound request: `AcceptJSON`
returns a context with the same failure. -/
theorem failure_sticky_unless_assigned_witness :
    fixture.failed.Fail = some (.text "earlier failure") ∧
    ∃ c, (send.AcceptJSON fixture.lib : Arrow fixture.Transport) fixture.failed = .ok c ∧
      c.Fail = some (.text "earlier failure") :=
  ⟨rfl, _, rfl,
    (failure_sticky_unless_assigned fixture.lib fixture.run fixture.failed _ rfl).1
      send.Accept "application/json" _ rfl⟩

end Failure

section FailedContext
open assay

variable {σ : Type}

theorem Code_invokes_transport (run : σ → Arrow σ) (code : List Int) (cat c : IOCat σ)
    (h : recv.Code run code cat = .ok c) : c.calls = cat.calls + 1 := by
  unfold recv.Code IOCat.Unsafe at h
  split at h
  · cases h
  · rename_i mid hmid
    split at hmid
    · cases hmid
    · split at hmid
      · cases hmid
      · cases hmid
        split at h
        · cases h; rfl
        · split at h
          · cases h
          · split at h
            · cases h
            · split at h <;> (cases h; rfl)

/-- C5, as the spec states it, fails: applied directly to a context whose
failure is set and that has an outbound request, `AcceptJSON` does not return
the context unchanged: it binds the header. -/
theorem arrows_act_on_failed_context :
    fixture.failed.Fail ≠ none ∧
    (send.AcceptJSON fixture.lib : Arrow fixture.Transport) fixture.failed ≠
      .ok fixture.failed ∧
    (send.AcceptJSON fixture.lib : Arrow fixture.Transport) fixture.failed =
      .ok { fixture.failed with
            HTTP := some
              { Send := some
                  { Method := "GET"
                    URL := { Scheme := "http", Host := "example.com", Path := "/json",
                             RawPath := "", RawQuery := "", Fragment := "" }
                    Header := [("accept", some "application/json")]
                    Payload := some [] }
                Recv := none } } := by
  refine ⟨by decide, ?_, rfl⟩
  intro h
  exact absurd (Except.ok.inj h) (by decide)

/-- C5, amended. The arrows themselves do not check failure; `Join` does. When
the arrows of a `Join` run clean up to an arrow that returns a context `c` with
failure set, every arrow that follows it, at any position and in any number,
is skipped and the `Join` returns `c` unchanged: a `Code` among them does not
invoke the transport action and `URL`, `Header(..).Is`, `Header(..).Val`,
`Params` and `Send` among them do not modify the outbound request. Applied
directly to a context, whether its failure is set or not, `URL`,
`Header(..).Is`, `Header(..).Val`, `Params` and `Send` panic or return alike
and give every field other than failure the same value, and `Code` invokes the
transport action once. -/
theorem Join_skips_arrows_after_failure (L : Stdlib) (run : σ → Arrow σ) (cat : IOCat σ) :
    (∀ (pre post : List (Arrow σ)) (first : Arrow σ) (last c : IOCat σ),
        Spec.cleanRun pre cat last → first last = .ok c → c.Fail ≠ none →
        Join (pre ++ first :: post) cat = .ok c) ∧
    (∀ (method uri : String) (args : List send.Arg),
        Spec.eraseFail (send.URL L method uri args cat) =
          Spec.eraseFail (send.URL L method uri args { cat with Fail := none })) ∧
    (∀ (header : send.THeader) (value : String),
        Spec.eraseFail (header.Is L value cat) =
          Spec.eraseFail (header.Is L value { cat with Fail := none })) ∧
    (∀ (header : send.THeader) (value : Option String),
        Spec.eraseFail (header.Val L value cat) =
          Spec.eraseFail (header.Val L value { cat with Fail := none })) ∧
    (∀ query : Value,
        Spec.eraseFail (send.Params L query cat) =
          Spec.eraseFail (send.Params L query { cat with Fail := none })) ∧
    (∀ data : send.Data,
        Spec.eraseFail (send.Send L data cat) =
          Spec.eraseFail (send.Send L data { cat with Fail := none })) ∧
    (∀ (code : List Int) (c : IOCat σ), recv.Code run code cat = .ok c →
        c.calls = cat.calls + 1) := by
  refine ⟨?_, ?_, ?_, ?_, ?_, ?_, ?_⟩
  · intro pre post first last c hclean hfirst hfail
    rw [cleanRun_Join pre cat last hclean]
    exact Join_cons_failed first post last c hfirst hfail
  · intro method uri args
    unfold send.URL
    cases send.mkURL L uri args with
    | error p => rfl
    | ok res =>
      cases res with
      | error err => rfl
      | ok addr =>
        by_cases hs : addr.Scheme = "http" ∨ addr.Scheme = "https"
        · simp [Spec.eraseFail, hs]
        · simp [Spec.eraseFail, hs]
  · intro header value
    unfold send.THeader.Is
    cases hh : cat.HTTP with
    | none => rfl
    | some http =>
      cases hu : http.Send with
      | none => simp [Spec.eraseFail, hu]
      | some up => simp [Spec.eraseFail, hu]
  · intro header value
    unfold send.THeader.Val
    cases hh : cat.HTTP with
    | none => rfl
    | some http =>
      cases hu : http.Send with
      | none => simp [Spec.eraseFail, hu]
      | some up => simp [Spec.eraseFail, hu]
  · intro query
    unfold send.Params
    cases hm : L.Marshal query with
    | error err => rfl
    | ok bytes =>
      cases hb : L.UnmarshalMap bytes with
      | error err => simp [Spec.eraseFail, hb]
      | ok req =>
        cases hh : cat.HTTP with
        | none => simp [Spec.eraseFail, hb, hh]
        | some http =>
          cases hu : http.Send with
          | none => simp [Spec.eraseFail, hb, hh, hu]
          | some up => simp [Spec.eraseFail, hb, hh, hu]
  · intro data
    unfold send.Send
    cases hh : cat.HTTP with
    | none => rfl
    | some http =>
      cases hu : http.Send with
      | none => simp [Spec.eraseFail, hu]
      | some up =>
        cases hc : up.Header.get "content-type" with
        | none => simp [Spec.eraseFail, hu, hc]
        | some content =>
          cases data with
          | string s => simp [Spec.eraseFail, hu, hc]
          | bytes s => simp [Spec.eraseFail, hu, hc]
          | reader s => simp [Spec.eraseFail, hu, hc]
          | other v =>
            cases content with
            | none => simp [Spec.eraseFail, hu, hc]
            | some ct => simp [Spec.eraseFail, hu, hc]
  · intro code c h
    exact Code_invokes_transport run code cat c h

/-- C5, amended, at the pipeline of `TestCodeNoMatch` followed by three more
arrows: after `Code(200)` has failed against the answer 400, the second
`Code(200)`, `KeepAlive` and `Send` are skipped, the transport having been
invoked once. -/
theorem Join_skips_arrows_after_failure_witness :
    Spec.cleanRun [send.GET fixture.lib "http://example.com/other" [],
        send.AcceptJSON fixture.lib] fixture.fresh (fixture.asked "/other") ∧
    Join ([send.GET fixture.lib "http://example.com/other" [], send.AcceptJSON fixture.lib] ++
          recv.Code fixture.run [200] ::
            [recv.Code fixture.run [200], send.KeepAlive fixture.lib,
             send.Send fixture.lib (.string "body")]) fixture.fresh =
      .ok { fixture.answered "/other" 1 with Fail := some (.text "do not match") } :=
  have hclean : Spec.cleanRun
      [send.GET fixture.lib "http://example.com/other" [], send.AcceptJSON fixture.lib]
      fixture.fresh (fixture.asked "/other") := ⟨_, rfl, rfl, _, rfl, rfl, rfl⟩
  ⟨hclean,
   (Join_skips_arrows_after_failure fixture.lib fixture.run fixture.fresh).1 _ _
      (recv.Code fixture.run [200]) _ _ hclean rfl (by decide)⟩

end FailedContext

/-! ## The status matcher `Code` -/

section StatusCode
open assay

variable {σ : Type}

theorem hasCode_iff (s : List Int) (e : Int) : recv.hasCode s e = true ↔ e ∈ s := by
  induction s with
  | nil => simp [recv.hasCode]
  | cons a rest ih =>
    by_cases h : a = e
    · simp [recv.hasCode, h]
    · have h2 : ¬ e = a := fun h3 => h h3.symm
      simp [recv.hasCode, h, h2, ih]

/-- C6. `Code` asserts membership of the status code. When the transport action
of the context returns, without failure, a context whose inbound response has
status `s`, then `Code(expected...)` returns a context, and that context has no
failure if and only if `s` is an element of `expected`. -/
theorem Code_ok_iff_member (run : σ → Arrow σ) (expected : List Int) (cat mid : IOCat σ)
    (f : σ) (http : IOCatHTTP) (resp : DnStreamHTTP)
    (hf : cat.sideEffect = some f) (hrun : run f cat = .ok mid) (hmid : mid.Fail = none)
    (hhttp : mid.HTTP = some http) (hresp : http.Recv = some resp) :
    ∃ c, recv.Code run expected cat = .ok c ∧ (c.Fail = none ↔ resp.StatusCode ∈ expected) := by
  by_cases hmem : resp.StatusCode ∈ expected
  · have hc : recv.hasCode expected resp.StatusCode = true := (hasCode_iff _ _).mpr hmem
    refine ⟨{ mid with calls := cat.calls + 1 }, ?_, ?_⟩
    · unfold recv.Code IOCat.Unsafe
      simp [hf, hrun, hmid, hhttp, hresp, hc]
    · simp [hmid, hmem]
  · have hc : recv.hasCode expected resp.StatusCode = false := by
      cases hh : recv.hasCode expected resp.StatusCode with
      | false => rfl
      | true => exact absurd ((hasCode_iff _ _).mp hh) hmem
    refine ⟨{ mid with calls := cat.calls + 1, Fail := some (.text "do not match") }, ?_, ?_⟩
    · unfold recv.Code IOCat.Unsafe
      simp [hf, hrun, hmid, hhttp, hresp, hc]
    · simp [hmem]

/-- C6 at the pipeline of `TestCodeOk`: the mock server answers 200 to
`GET`, `AcceptJSON`, `Code(200)`, and the pipeline ends with no failure. -/
theorem Code_ok_iff_member_witness :
    Join [send.GET fixture.lib "http://example.com/json" [], send.AcceptJSON fixture.lib,
          recv.Code fixture.run [200]] fixture.fresh = .ok (fixture.answered "/json" 1) ∧
    (fixture.answered "/json" 1).Fail = none ∧
    ∃ c, recv.Code fixture.run [200] (fixture.asked "/json") = .ok c ∧
      (c.Fail = none ↔ (fixture.mock "/json").StatusCode ∈ [200]) :=
  ⟨rfl, rfl,
   Code_ok_iff_member fixture.run [200] (fixture.asked "/json") _ .pool _ (fixture.mock "/json")
     rfl rfl rfl rfl rfl⟩

/-- C7 at the pipeline of `TestCodeNoMatch`: against the answer 400, `Code(200)`
sets the failure `errors.New("do not match")`; the same failure is set for the
answer 500 against the expected codes 201 and 204, so it carries neither the
actual nor the expected status. -/
theorem Code_mismatch_is_plain_text :
    (∃ c, Join [send.GET fixture.lib "http://example.com/other" [], send.AcceptJSON fixture.lib,
          recv.Code fixture.run [200]] fixture.fresh = .ok c ∧
        (fixture.mock "/other").StatusCode = 400 ∧
        c.Fail = some (.text "do not match")) ∧
    (∃ c, recv.Code fixture.run [201, 204]
          { fixture.fresh with sideEffect := some (.script [500]) } = .ok c ∧
        c.Fail = some (.text "do not match")) :=
  ⟨⟨_, rfl, rfl, rfl⟩, ⟨_, rfl, rfl⟩⟩

end StatusCode

/-! ## The transport trigger -/

section Transport
open assay

variable {σ : Type}

theorem Join_Code_calls (run : σ → Arrow σ) (codes : List (List Int)) (cat c : IOCat σ)
    (h : Join (codes.map (recv.Code run)) cat = .ok c) :
    (c.Fail = none → c.calls = cat.calls + codes.length) ∧
    c.calls ≤ cat.calls + codes.length ∧ (codes ≠ [] → cat.calls + 1 ≤ c.calls) := by
  induction codes generalizing cat with
  | nil =>
    cases h
    simp
  | cons code rest ih =>
    rw [List.map_cons, Join_cons_eq] at h
    cases hc : recv.Code run code cat with
    | error p => rw [hc] at h; cases h
    | ok mid =>
      have hmid := Code_invokes_transport run code cat mid hc
      rw [hc] at h
      cases hf : mid.Fail with
      | some e =>
        simp only [Join.andThen, hf, Option.isSome_some, if_true] at h
        cases h
        refine ⟨fun hn => ?_, ?_, fun _ => ?_⟩
        · rw [hf] at hn; cases hn
        · rw [hmid, List.length_cons]; omega
        · omega
      | none =>
        simp only [Join.andThen, hf, Option.isSome_none] at h
        obtain ⟨h1, h2, _⟩ := ih mid h
        refine ⟨fun hn => ?_, ?_, fun _ => ?_⟩
        · rw [h1 hn, hmid, List.length_cons]; omega
        · rw [List.length_cons]; omega
        · by_cases hr : rest = []
          · subst hr
            cases h
            omega
          · have := (ih mid h).2.2 hr
            omega

/-- C8, as the spec states it, fails: `Join(Code(200), Code(200))` against the
mock server executes the transport action twice; and against a server that
answers 200 and then 500 the second `Code(200)` fails on the fresh answer 500
instead of observing the cached answer 200. -/
theorem transport_invoked_twice :
    (∃ c, Join [recv.Code fixture.run [200], recv.Code fixture.run [200]]
            (fixture.asked "/json") = .ok c ∧ c.Fail = none ∧ c.calls = 2) ∧
    (∃ c, recv.Code fixture.run [200]
            { fixture.fresh with sideEffect := some (.script [200, 500]) } = .ok c ∧
          c.Fail = none) ∧
    (∃ c, Join [recv.Code fixture.run [200], recv.Code fixture.run [200]]
            { fixture.fresh with sideEffect := some (.script [200, 500]) } = .ok c ∧
          c.Fail = some (.text "do not match") ∧
          c.HTTP = some { Send := none,
                          Recv := some { StatusCode := 500, Header := [], Body := [] } }) :=
  ⟨⟨_, rfl, rfl, rfl⟩, ⟨_, rfl, rfl⟩, ⟨_, rfl, rfl, rfl⟩⟩

/-- C8, amended. `Unsafe` does not memoize: every `Code` arrow that is applied
invokes the transport action exactly once, whether or not an inbound response
is already present. A `Join` of `n` `Code` arrows that all pass executes the
action `n` times, which is once only for `n = 1`; when one of them fails the
action has been executed at least once and at most `n` times. -/
theorem transport_invoked_once_per_Code (run : σ → Arrow σ) (codes : List (List Int))
    (cat c : IOCat σ) (h : Join (codes.map (recv.Code run)) cat = .ok c) :
    (∀ (code : List Int) (c1 : IOCat σ), recv.Code run code cat = .ok c1 →
        c1.calls = cat.calls + 1) ∧
    (c.Fail = none → c.calls = cat.calls + codes.length) ∧
    c.calls ≤ cat.calls + codes.length ∧ (codes ≠ [] → cat.calls + 1 ≤ c.calls) :=
  ⟨fun code c1 h1 => Code_invokes_transport run code cat c1 h1, Join_Code_calls run codes cat c h⟩

/-- C8, amended, at `Join(Code(200), Code(200))` against the mock server: two
invocations of the transport action. -/
theorem transport_invoked_once_per_Code_witness :
    Join ([[200], [200]].map (recv.Code fixture.run)) (fixture.asked "/json") =
      .ok (fixture.answered "/json" 2) ∧
    (fixture.answered "/json" 2).calls = (fixture.asked "/json").calls + 2 :=
  ⟨rfl,
   (transport_invoked_once_per_Code fixture.run [[200], [200]] (fixture.asked "/json")
      (fixture.answered "/json" 2) rfl).2.1 rfl⟩

end Transport

/-! ## Header names -/

section Headers
open assay

variable {σ : Type}

theorem HeaderMap_get_set_same (m : HeaderMap) (k : String) (v : Option String) :
    (m.set k v).get k = some v := by
  induction m with
  | nil => simp [HeaderMap.set, HeaderMap.get]
  | cons kv rest ih =>
    obtain ⟨k', v'⟩ := kv
    by_cases h : k' = k
    · simp [HeaderMap.set, HeaderMap.get, h]
    · simp [HeaderMap.set, HeaderMap.get, h, ih]

theorem HeaderMap_get_set_other (m : HeaderMap) (k j : String) (v : Option String)
    (hj : j ≠ k) : (m.set k v).get j = m.get j := by
  have hkj : ¬ k = j := fun h => hj h.symm
  induction m with
  | nil => simp [HeaderMap.set, HeaderMap.get, hkj]
  | cons kv rest ih =>
    obtain ⟨k', v'⟩ := kv
    by_cases h : k' = k
    · subst h
      simp [HeaderMap.set, HeaderMap.get, hkj]
    · by_cases h2 : k' = j
      · subst h2
        simp [HeaderMap.set, HeaderMap.get, hj]
      · simp [HeaderMap.set, HeaderMap.get, h, h2, ih]

theorem sameUpToCase_map (L : Stdlib) (a b : List Char)
    (h : Spec.sameUpToCase L a b = true) :
    a.map L.UnicodeToLower = b.map L.UnicodeToLower := by
  induction a generalizing b with
  | nil =>
    cases b with
    | nil => rfl
    | cons y ys => simp [Spec.sameUpToCase] at h
  | cons x xs ih =>
    cases b with
    | nil => simp [Spec.sameUpToCase] at h
    | cons y ys =>
      simp only [Spec.sameUpToCase, Bool.and_eq_true, beq_iff_eq] at h
      simp [h.1, ih ys h.2]

theorem name_eq_of_sameUpToCase (L : Stdlib) (a b : String)
    (h : Spec.sameUpToCase L a.data b.data = true) :
    (send.Header a).name L = (send.Header b).name L := by
  simp [send.THeader.name, send.Header, strings.ToLower, sameUpToCase_map L a.data b.data h]

theorem ToLower_of_lowersASCII (L : Stdlib) (h : Spec.lowersASCII L) (s : String)
    (hs : ∀ c ∈ s.data, c.toNat < 128) :
    strings.ToLower L s = String.mk (s.data.map Char.toLower) := by
  unfold strings.ToLower
  congr 1
  exact List.map_congr_left (fun c hc => h c (hs c hc))

theorem name_Content_Type (L : Stdlib) (h : Spec.lowersASCII L) :
    (send.Header "Content-Type").name L = "content-type" := by
  have h1 := ToLower_of_lowersASCII L h "Content-Type" (by decide)
  have h2 : String.mk ("Content-Type".data.map Char.toLower) = "content-type" := by decide
  simp only [send.THeader.name, send.Header]
  rw [h1, h2]

/-- C9. Header names are case-insensitive on the send path. On a context with
an outbound request, for header names `a` and `b` that differ only in letter
case, `Header(a).Is(x)` and `Header(b).Is(x)` return the same context; in its
header map `x` is stored under the lower-cased name, every other entry is as
before, and method, URL and payload are as before. Since `unicode.ToLower`
lowers the ASCII letters, a content type bound with
`Header("Content-Type").Is(x)` is found under `"content-type"`, and `Send` of a
structured value then encodes by `x`. -/
theorem Header_Is_case_insensitive (L : Stdlib) (cat : IOCat σ) (http : IOCatHTTP)
    (up : UpStreamHTTP) (a b x : String)
    (hhttp : cat.HTTP = some http) (hsend : http.Send = some up)
    (hab : Spec.sameUpToCase L a.data b.data = true) :
    (send.Header a).Is L x cat = (send.Header b).Is L x cat ∧
    (∃ c up', (send.Header a).Is L x cat = .ok c ∧ Spec.outbound c = some up' ∧
        up'.Header.get (strings.ToLower L a) = some (some x) ∧
        (∀ k, k ≠ strings.ToLower L a → up'.Header.get k = up.Header.get k) ∧
        up'.Method = up.Method ∧ up'.URL = up.URL ∧ up'.Payload = up.Payload) ∧
    (Spec.lowersASCII L →
      ∃ c up', (send.Header "Content-Type").Is L x cat = .ok c ∧ Spec.outbound c = some up' ∧
        up'.Header.get "content-type" = some (some x) ∧
        ∀ v : Value, send.Send L (.other v) c =
          .ok { c with
                Fail := (send.encode L x v).2
                HTTP := some { http with
                  Send := some { up' with Payload := (send.encode L x v).1 } } }) := by
  refine ⟨?_, ?_, ?_⟩
  · unfold send.THeader.Is
    rw [name_eq_of_sameUpToCase L a b hab]
  · refine ⟨{ cat with
              HTTP := some { http with
                Send := some { up with Header := up.Header.set (strings.ToLower L a) (some x) } } },
      { up with Header := up.Header.set (strings.ToLower L a) (some x) }, ?_, ?_, ?_, ?_,
      rfl, rfl, rfl⟩
    · simp [send.THeader.Is, hhttp, hsend, send.THeader.name, send.Header]
    · simp [Spec.outbound]
    · exact HeaderMap_get_set_same _ _ _
    · intro k hk
      exact HeaderMap_get_set_other _ _ _ _ hk
  · intro hascii
    have hname := name_Content_Type L hascii
    refine ⟨{ cat with
              HTTP := some { http with
                Send := some { up with Header := up.Header.set "content-type" (some x) } } },
      { up with Header := up.Header.set "content-type" (some x) }, ?_, ?_, ?_, ?_⟩
    · simp [send.THeader.Is, hhttp, hsend, hname]
    · simp [Spec.outbound]
    · exact HeaderMap_get_set_same _ _ _
    · intro v
      simp [send.Send, HeaderMap_get_set_same]

/-- C9 at the context of the tests: `Header("ACCEPT")` and `Header("accept")`
bind the same entry, and `Header("Content-Type")` binds `"content-type"`. -/
theorem Header_Is_case_insensitive_witness :
    Spec.sameUpToCase fixture.lib "ACCEPT".data "accept".data = true ∧
    ((send.Header "ACCEPT").Is fixture.lib "text/plain" (fixture.asked "/json") :
        Except Panic _) =
      (send.Header "accept").Is fixture.lib "text/plain" (fixture.asked "/json") ∧
    Spec.lowersASCII fixture.lib ∧
    ∃ c up', (send.Header "Content-Type").Is fixture.lib "text/plain" (fixture.asked "/json") =
        .ok c ∧ Spec.outbound c = some up' ∧
      up'.Header.get "content-type" = some (some "text/plain") :=
  ⟨by decide,
   (Header_Is_case_insensitive fixture.lib (fixture.asked "/json") _ _ "ACCEPT" "accept"
      "text/plain" rfl rfl (by decide)).1,
   fun _ _ => rfl,
   ((Header_Is_case_insensitive fixture.lib (fixture.asked "/json") _ _ "ACCEPT" "accept"
      "text/plain" rfl rfl (by decide)).2.2 (fun _ _ => rfl)).elim
     (fun c h => h.elim (fun up' h2 => ⟨c, up', h2.1, h2.2.1, h2.2.2.1⟩))⟩

end Headers

/-! ## Arrows without an outbound request -/

section MissingOutbound
open assay

variable {σ : Type}

/-- C10, as the spec states it, fails: on the context returned by `IO()`, on
which no `URL` arrow has run, `AcceptJSON` dereferences the absent
`cat.HTTP` and panics instead of returning a context with failure set. -/
theorem Header_Is_panics_without_outbound :
    IOWith ([] : List (Config fixture.Transport)) = .ok IOCat.zero ∧
    (send.AcceptJSON fixture.lib : Arrow fixture.Transport) IOCat.zero = .error .nilDereference :=
  ⟨rfl, rfl⟩

/-- C10, amended. On a context without an outbound request, `Header(..).Is`,
`Header(..).Val` and `Send(data)` dereference it and panic with a nil pointer
dereference; they return no context. `Params(q)` returns the context with
failure set to the serialization error when `q` does not serialize to a flat
string map, and panics like the others when it does. -/
theorem arrows_without_outbound (L : Stdlib) (cat : IOCat σ) (h : Spec.outbound cat = none) :
    (∀ (header : send.THeader) (value : String),
        header.Is L value cat = .error .nilDereference) ∧
    (∀ (header : send.THeader) (value : Option String),
        header.Val L value cat = .error .nilDereference) ∧
    (∀ data : send.Data, send.Send L data cat = .error .nilDereference) ∧
    (∀ (query : Value) (err : Error), L.Marshal query = .error err →
        send.Params L query cat = .ok { cat with Fail := some err }) ∧
    (∀ (query : Value) (bytes : Bytes) (err : Error), L.Marshal query = .ok bytes →
        L.UnmarshalMap bytes = .error err →
        send.Params L query cat = .ok { cat with Fail := some err }) ∧
    (∀ (query : Value) (bytes : Bytes) (req : List (String × String)),
        L.Marshal query = .ok bytes → L.UnmarshalMap bytes = .ok req →
        send.Params L query cat = .error .nilDereference) := by
  unfold Spec.outbound at h
  cases hh : cat.HTTP with
  | none =>
    refine ⟨?_, ?_, ?_, ?_, ?_, ?_⟩
    · intro header value; simp [send.THeader.Is, hh]
    · intro header value; simp [send.THeader.Val, hh]
    · intro data; simp [send.Send, hh]
    · intro query err hm; simp [send.Params, hm, hh]
    · intro query bytes err hm hu; simp [send.Params, hm, hu, hh]
    · intro query bytes req hm hu; simp [send.Params, hm, hu, hh]
  | some http =>
    rw [hh] at h
    simp only at h
    refine ⟨?_, ?_, ?_, ?_, ?_, ?_⟩
    · intro header value; simp [send.THeader.Is, hh, h]
    · intro header value; simp [send.THeader.Val, hh, h]
    · intro data; simp [send.Send, hh, h]
    · intro query err hm; simp [send.Params, hm, hh]
    · intro query bytes err hm hu; simp [send.Params, hm, hu, hh]
    · intro query bytes req hm hu; simp [send.Params, hm, hu, hh, h]

/-- C10, amended, at the context returned by `IO()`: `Send` of a string panics,
and `Params` of a function value sets the failure of `json.Marshal`. -/
theorem arrows_without_outbound_witness :
    Spec.outbound (IOCat.zero : IOCat fixture.Transport) = none ∧
    send.Send fixture.lib (.string "body") (IOCat.zero : IOCat fixture.Transport) =
      .error .nilDereference ∧
    send.Params fixture.lib .func (IOCat.zero : IOCat fixture.Transport) =
      .ok { (IOCat.zero : IOCat fixture.Transport) with
            Fail := some (.external "encoding/json" "json: unsupported type") } :=
  ⟨rfl,
   (arrows_without_outbound fixture.lib (IOCat.zero : IOCat fixture.Transport) rfl).2.2.1 _,
   (arrows_without_outbound fixture.lib (IOCat.zero : IOCat fixture.Transport) rfl).2.2.2.1
      .func _ rfl⟩

end MissingOutbound

/-! ## The payload arrow `Send` -/

section Payload
open assay

variable {σ : Type}

theorem Send_of_content (L : Stdlib) (cat : IOCat σ) (http : IOCatHTTP) (up : UpStreamHTTP)
    (c : String) (v : Value) (hhttp : cat.HTTP = some http) (hsend : http.Send = some up)
    (hct : up.Header.get "content-type" = some (some c)) :
    send.Send L (.other v) cat =
      .ok { cat with
            Fail := (send.encode L c v).2
            HTTP := some { http with Send := some { up with Payload := (send.encode L c v).1 } } } := by
  simp [send.Send, hhttp, hsend, hct]

/-- C11. `Send` requires a content type. On a context with an outbound request
whose header map has no `"content-type"` entry, `Send(data)`, for raw and
structured data alike, returns the context with failure set to
`"unknown Content-Type"` and nothing else changed: the outbound request, with
its payload, headers and URL, and the inbound response are as before, and the
transport action has not been invoked. -/
theorem Send_requires_content_type (L : Stdlib) (cat : IOCat σ) (http : IOCatHTTP)
    (up : UpStreamHTTP) (data : send.Data)
    (hhttp : cat.HTTP = some http) (hsend : http.Send = some up)
    (hct : up.Header.get "content-type" = none) :
    send.Send L data cat = .ok { cat with Fail := some (.text "unknown Content-Type") } ∧
    Spec.outbound { cat with Fail := some (.text "unknown Content-Type") } = some up ∧
    Spec.inbound { cat with Fail := some (.text "unknown Content-Type") } = Spec.inbound cat ∧
    ({ cat with Fail := some (.text "unknown Content-Type") } : IOCat σ).calls = cat.calls := by
  refine ⟨?_, ?_, rfl, rfl⟩
  · simp [send.Send, hhttp, hsend, hct]
  · simp [Spec.outbound, hhttp, hsend]

/-- C11 at the context of the tests, which binds `accept` only: `Send` of a
string fails with `"unknown Content-Type"`. -/
theorem Send_requires_content_type_witness :
    send.Send fixture.lib (.string "site=example.com") (fixture.asked "/json") =
      .ok { fixture.asked "/json" with Fail := some (.text "unknown Content-Type") } :=
  (Send_requires_content_type fixture.lib (fixture.asked "/json") _ _
    (.string "site=example.com") rfl rfl rfl).1

/-- C12. Encode dispatch follows the declared content type. On a context whose
outbound request declares the content type `c`, `Send` of a structured value
`v` returns a context whose payload and failure are those of `encodeJSON` when
`c` contains `"json"`, those of `encodeForm` when `c` contains `"www-form"` and
not `"json"`, and otherwise no payload and the failure
`"unsupported Content-Type " ++ c`. The JSON strategy yields the bytes of
`json.Marshal`; the form strategy yields the form encoding of the flat map.
When the errors of `json.Marshal` are values of the library, the failure is the
unsupported error exactly when `c` contains neither substring. -/
theorem Send_encode_dispatch (L : Stdlib) (cat : IOCat σ) (http : IOCatHTTP)
    (up : UpStreamHTTP) (c : String) (v : Value)
    (hhttp : cat.HTTP = some http) (hsend : http.Send = some up)
    (hct : up.Header.get "content-type" = some (some c)) :
    (∃ res, send.Send L (.other v) cat = .ok res ∧
      (strings.Contains c "json" = true →
        res.Fail = (send.encodeJSON L v).2 ∧
        Spec.outbound res = some { up with Payload := (send.encodeJSON L v).1 }) ∧
      (strings.Contains c "json" = false → strings.Contains c "www-form" = true →
        res.Fail = (send.encodeForm L v).2 ∧
        Spec.outbound res = some { up with Payload := (send.encodeForm L v).1 }) ∧
      (strings.Contains c "json" = false → strings.Contains c "www-form" = false →
        res.Fail = some (.text ("unsupported Content-Type " ++ c)) ∧
        Spec.outbound res = some { up with Payload := none }) ∧
      ((∀ e, L.Marshal v = .error e → ∃ origin msg, e = .external origin msg) →
        (res.Fail = some (.text ("unsupported Content-Type " ++ c)) ↔
          strings.Contains c "json" = false ∧ strings.Contains c "www-form" = false))) ∧
    (∀ json, L.Marshal v = .ok json → send.encodeJSON L v = (some json, none)) ∧
    (∀ bin req, L.Marshal v = .ok bin → L.UnmarshalMap bin = .ok req →
      send.encodeForm L v =
        (some (bytesOf (L.Encode (req.foldl (fun p kv => p.Set kv.1 [kv.2]) []))), none)) := by
  refine ⟨⟨_, Send_of_content L cat http up c v hhttp hsend hct, ?_, ?_, ?_, ?_⟩, ?_, ?_⟩
  · intro hj
    simp [send.encode, hj, Spec.outbound]
  · intro hj hw
    simp [send.encode, hj, hw, Spec.outbound]
  · intro hj hw
    simp [send.encode, hj, hw, Spec.outbound]
  · intro hlib
    constructor
    · intro hfail
      cases hj : strings.Contains c "json" with
      | true =>
        exfalso
        simp only [send.encode, hj, if_true, send.encodeJSON] at hfail
        cases hm : L.Marshal v with
        | ok json => simp [hm] at hfail
        | error e =>
          obtain ⟨origin, msg, he⟩ := hlib e hm
          simp [hm, he] at hfail
      | false =>
        cases hw : strings.Contains c "www-form" with
        | false => exact ⟨rfl, rfl⟩
        | true =>
          exfalso
          simp only [send.encode, hj, hw, if_true, send.encodeForm] at hfail
          cases hm : L.Marshal v with
          | error e =>
            obtain ⟨origin, msg, he⟩ := hlib e hm
            simp [hm, he] at hfail
          | ok bin =>
            cases hu : L.UnmarshalMap bin with
            | ok req => simp [hm, hu] at hfail
            | error e => simp [hm, hu] at hfail
    · rintro ⟨hj, hw⟩
      simp [send.encode, hj, hw]
  · intro json hm
    simp [send.encodeJSON, hm]
  · intro bin req hm hu
    simp [send.encodeForm, hm, hu]

/-- C12 at a context that declares `application/json`: `Send` of a structured
value stores the bytes of `json.Marshal` and sets no failure. -/
theorem Send_encode_dispatch_witness :
    send.Send fixture.lib (.other (.obj [("site", .str "example.com")]))
        (fixture.typed "/json" (some "application/json")) =
      .ok { fixture.typed "/json" (some "application/json") with
            HTTP := some
              { Send := some
                  { Method := "GET"
                    URL := { Scheme := "http", Host := "example.com", Path := "/json",
                             RawPath := "", RawQuery := "", Fragment := "" }
                    Header := [("accept", some "application/json"),
                               ("content-type", some "application/json")]
                    Payload := some (bytesOf "\x7b\"site\":\"example.com\"\x7d") }
                Recv := none } } ∧
    send.encodeJSON fixture.lib (.obj [("site", .str "example.com")]) =
      (some (bytesOf "\x7b\"site\":\"example.com\"\x7d"), none) :=
  ⟨rfl,
   (Send_encode_dispatch fixture.lib (fixture.typed "/json" (some "application/json")) _ _
      "application/json" (.obj [("site", .str "example.com")]) rfl rfl rfl).2.1 _ rfl⟩

/-- C13. Raw payloads are sent verbatim. On a context whose outbound request has
a `"content-type"` entry, bound to any value, `Send` of a string or of a byte
sequence returns a context whose outbound payload is exactly the bytes of the
data, whose method, URL and headers are as before, and whose failure is as
before: none is set. -/
theorem Send_raw_verbatim (L : Stdlib) (cat : IOCat σ) (http : IOCatHTTP) (up : UpStreamHTTP)
    (content : Option String)
    (hhttp : cat.HTTP = some http) (hsend : http.Send = some up)
    (hct : up.Header.get "content-type" = some content) :
    (∀ s : String, ∃ res, send.Send L (.string s) cat = .ok res ∧
      Spec.outbound res = some { up with Payload := some (bytesOf s) } ∧
      res.Fail = cat.Fail ∧ Spec.inbound res = Spec.inbound cat ∧ res.calls = cat.calls) ∧
    (∀ b : Bytes, ∃ res, send.Send L (.bytes b) cat = .ok res ∧
      Spec.outbound res = some { up with Payload := some b } ∧
      res.Fail = cat.Fail ∧ Spec.inbound res = Spec.inbound cat ∧ res.calls = cat.calls) := by
  constructor
  · intro s
    refine ⟨{ cat with
              HTTP := some { http with Send := some { up with Payload := some (bytesOf s) } } },
      ?_, ?_, rfl, ?_, rfl⟩
    · simp [send.Send, hhttp, hsend, hct]
    · simp [Spec.outbound]
    · simp [Spec.inbound, hhttp]
  · intro b
    refine ⟨{ cat with HTTP := some { http with Send := some { up with Payload := some b } } },
      ?_, ?_, rfl, ?_, rfl⟩
    · simp [send.Send, hhttp, hsend, hct]
    · simp [Spec.outbound]
    · simp [Spec.inbound, hhttp]

/-- C13 at a context that declares a form content type: `Send` of a string
stores its bytes. -/
theorem Send_raw_verbatim_witness :
    ∃ res, send.Send fixture.lib (.string "site=example.com")
        (fixture.typed "/form" (some "application/x-www-form-urlencoded")) = .ok res ∧
      Spec.outbound res = some
        { Method := "GET"
          URL := { Scheme := "http", Host := "example.com", Path := "/form", RawPath := "",
                   RawQuery := "", Fragment := "" }
          Header := [("accept", some "application/json"),
                     ("content-type", some "application/x-www-form-urlencoded")]
          Payload := some (bytesOf "site=example.com") } ∧
      res.Fail = none :=
  ((Send_raw_verbatim fixture.lib
    (fixture.typed "/form" (some "application/x-www-form-urlencoded")) _ _ _ rfl rfl rfl).1
    "site=example.com").elim (fun res h => ⟨res, h.1, h.2.1, h.2.2.1⟩)

end Payload

/-! ## The `URL` arrow -/

section Target
open assay

variable {σ : Type}

theorem opts_eq_map_operand (L : Stdlib) (escape : Bool) (args : List send.Arg)
    (h : ∀ a ∈ args, Spec.present a) :
    send.mkEscapedURL.opts L escape args = .ok (args.map (Spec.operand L escape)) := by
  induction args with
  | nil => rfl
  | cons a rest ih =>
    have hrest : ∀ b ∈ rest, Spec.present b := fun b hb => h b (List.mem_cons_of_mem a hb)
    have ha : Spec.present a := h a (List.mem_cons_self a rest)
    cases a with
    | url v =>
      cases v with
      | none => exact absurd ha (by simp [Spec.present])
      | some u => simp [send.mkEscapedURL.opts, ih hrest, Spec.operand]
    | thunk v =>
      cases v with
      | none => exact absurd ha (by simp [Spec.present])
      | some s =>
        simp [send.mkEscapedURL.opts, ih hrest, Spec.operand, Spec.rendering, send.maybeEscape]
    | other x =>
      simp [send.mkEscapedURL.opts, ih hrest, Spec.operand, Spec.rendering, send.maybeEscape]

/-- C14, as the spec states it, fails: for a template that `url.Parse` refuses,
here one without a scheme before the colon, the `URL` arrow sets failure to the
error of `url.Parse`, which is not an unsupported-target error. -/
theorem URL_parse_failure_is_not_unsupported :
    ∃ c, send.URL fixture.lib "GET" ":8080/json" [] fixture.fresh = .ok c ∧
      c.Fail = some (.external "net/url" "parse \":8080/json\": missing protocol scheme") ∧
      ∀ target, c.Fail ≠ some (.notSupported target) :=
  ⟨_, rfl, rfl, fun _ h => Error.noConfusion (Option.some.inj h)⟩

/-- C14, amended. When the interpolated string fails to parse, the `URL` arrow
sets failure to the error returned by `url.Parse` and changes nothing else.
When it parses to a scheme other than `http` and `https`, the arrow sets
failure to the unsupported-target error that carries the parsed URL and keeps
the outbound request and the inbound response as they were. When the scheme is
`http` or `https`, it sets no failure and installs an outbound request with the
given method and the parsed URL. -/
theorem URL_rejects_unsupported (L : Stdlib) (method uri : String) (args : List send.Arg)
    (cat : IOCat σ) (parsed : Except Error url.URL)
    (h : send.mkURL L uri args = .ok parsed) :
    (∀ err, parsed = .error err →
      send.URL L method uri args cat = .ok { cat with Fail := some err }) ∧
    (∀ addr, parsed = .ok addr → ¬ (addr.Scheme = "http" ∨ addr.Scheme = "https") →
      ∃ c, send.URL L method uri args cat = .ok c ∧ c.Fail = some (.notSupported addr) ∧
        Spec.outbound c = Spec.outbound cat ∧ Spec.inbound c = Spec.inbound cat) ∧
    (∀ addr, parsed = .ok addr → addr.Scheme = "http" ∨ addr.Scheme = "https" →
      ∃ c up, send.URL L method uri args cat = .ok c ∧ c.Fail = none ∧
        Spec.outbound c = some up ∧ up.Method = method ∧ up.URL = addr) := by
  refine ⟨?_, ?_, ?_⟩
  · intro err hp
    subst hp
    simp [send.URL, h]
  · intro addr hp hs
    subst hp
    refine ⟨_, by simp only [send.URL, h, hs, if_false]; rfl, rfl, ?_, ?_⟩
    · cases hh : cat.HTTP <;> simp [Spec.outbound, hh]
    · cases hh : cat.HTTP <;> simp [Spec.inbound, hh]
  · intro addr hp hs
    subst hp
    refine ⟨_, { Method := method, URL := addr, Header := [], Payload := some [] },
      by simp only [send.URL, h, hs, if_true]; rfl, rfl, ?_, rfl, rfl⟩
    simp [Spec.outbound]

/-- C14, amended, at a target with the scheme `ftp`: the failure is the
unsupported-target error and no outbound request is installed. -/
theorem URL_rejects_unsupported_witness :
    ∃ c, send.URL fixture.lib "GET" "ftp://example.com/json" [] fixture.fresh = .ok c ∧
      c.Fail = some (.notSupported
        { Scheme := "ftp", Host := "example.com", Path := "/json", RawPath := "",
          RawQuery := "", Fragment := "" }) ∧
      Spec.outbound c = none :=
  ((URL_rejects_unsupported fixture.lib "GET" "ftp://example.com/json" [] fixture.fresh _
      rfl).2.1 _ rfl (by decide)).elim (fun c h => ⟨c, h.1, h.2.1, h.2.2.1⟩)

/-- C15 at the empty template: `mkURL` reads `uri[0]` and the `URL` arrow
panics with an index out of range, for every method, argument list and context.
The one-character template `"!"` passes this point. -/
theorem URL_empty_template_panics (L : Stdlib) (method : String) (args : List send.Arg)
    (cat : IOCat σ) :
    send.URL L method "" args cat = .error .indexOutOfRange ∧
    send.mkURL L "!" args = send.mkEscapedURL L false "" args :=
  ⟨rfl, rfl⟩

end Target

section Template
open assay

variable {σ : Type}

theorem URL_of_mkURL (L : Stdlib) (method uri : String) (args : List send.Arg) (cat : IOCat σ)
    (addr : url.URL) (h : send.mkURL L uri args = .ok (.ok addr))
    (hs : addr.Scheme = "http" ∨ addr.Scheme = "https") :
    ∃ res up, send.URL L method uri args cat = .ok res ∧ Spec.outbound res = some up ∧
      up.URL = addr := by
  have key : send.URL L method uri args cat =
      .ok { cat with
            Fail := none
            HTTP := some
              { Send := some { Method := method, URL := addr, Header := [], Payload := some [] }
                Recv := Spec.inbound cat } } := by
    cases hh : cat.HTTP <;> simp [send.URL, h, hs, Spec.inbound, hh]
  exact ⟨_, { Method := method, URL := addr, Header := [], Payload := some [] }, key,
    by simp [Spec.outbound], rfl⟩

/-- C16, as the spec states it, fails: for the argument `"a b"` the templates
`"http://h/%v"` and `"!http://h/%v"` yield the same path. `url.Parse` decodes
the escaped text, so both outbound URLs have the path `"/a b"`, where the
claim has `"a%20b"` for the first, and both are written `"http://h/a%20b"`,
where the claim has `"a b"` for the second. -/
theorem URL_toggle_yields_same_path :
    (∃ c up, send.URL fixture.lib "GET" "http://h/%v" [.other (.str "a b")] fixture.fresh =
        .ok c ∧ Spec.outbound c = some up ∧ up.URL.Path = "/a b" ∧
        fixture.lib.URLString up.URL = "http://h/a%20b") ∧
    (∃ c up, send.URL fixture.lib "GET" "!http://h/%v" [.other (.str "a b")] fixture.fresh =
        .ok c ∧ Spec.outbound c = some up ∧ up.URL.Path = "/a b" ∧
        fixture.lib.URLString up.URL = "http://h/a%20b") :=
  ⟨⟨_, _, rfl, rfl, rfl, by decide⟩, ⟨_, _, rfl, rfl, rfl, by decide⟩⟩

/-- C16, amended. The escaping toggle acts on the text that is parsed. For a
template without a leading `!`, the string handed to `url.Parse` is the
template with each argument substituted in order, every non-URL argument
percent-escaped by `url.PathEscape` first. For a template with a leading `!`,
the `!` is removed and each argument is substituted as it is. A URL argument
is substituted unescaped in both cases, with the trailing slash of its path
trimmed. The URL that the arrow installs is what `url.Parse` makes of that
string. -/
theorem URL_escaping_toggle (L : Stdlib) (args : List send.Arg)
    (h : ∀ a ∈ args, Spec.present a) :
    (∀ (c : Char) (rest : List Char), c ≠ '!' →
      send.mkURL L (String.mk (c :: rest)) args =
        .ok (L.Parse (L.Sprintf (String.mk (c :: rest)) (args.map (Spec.operand L true))))) ∧
    (∀ rest : List Char,
      send.mkURL L (String.mk ('!' :: rest)) args =
        .ok (L.Parse (L.Sprintf (String.mk rest) (args.map (Spec.operand L false))))) ∧
    (∀ x : Value, Spec.operand L true (.other x) = L.PathEscape (send.urlSegment L x) ∧
      Spec.operand L false (.other x) = send.urlSegment L x) ∧
    (∀ s : String, Spec.operand L true (.thunk (some s)) = L.PathEscape s ∧
      Spec.operand L false (.thunk (some s)) = s) ∧
    (∀ (v : url.URL) (escape : Bool), Spec.operand L escape (.url (some v)) =
      L.URLString { v with Path := strings.TrimSuffix v.Path "/" }) ∧
    (∀ (c : Char) (rest : List Char) (method : String) (cat : IOCat σ) (addr : url.URL),
      c ≠ '!' →
      L.Parse (L.Sprintf (String.mk (c :: rest)) (args.map (Spec.operand L true))) = .ok addr →
      addr.Scheme = "http" ∨ addr.Scheme = "https" →
      ∃ res up, send.URL L method (String.mk (c :: rest)) args cat = .ok res ∧
        Spec.outbound res = some up ∧ up.URL = addr) ∧
    (∀ (rest : List Char) (method : String) (cat : IOCat σ) (addr : url.URL),
      L.Parse (L.Sprintf (String.mk rest) (args.map (Spec.operand L false))) = .ok addr →
      addr.Scheme = "http" ∨ addr.Scheme = "https" →
      ∃ res up, send.URL L method (String.mk ('!' :: rest)) args cat = .ok res ∧
        Spec.outbound res = some up ∧ up.URL = addr) := by
  have hplain : ∀ (c : Char) (rest : List Char), c ≠ '!' →
      send.mkURL L (String.mk (c :: rest)) args =
        .ok (L.Parse (L.Sprintf (String.mk (c :: rest)) (args.map (Spec.operand L true)))) := by
    intro c rest hc
    have hm : send.mkURL L (String.mk (c :: rest)) args =
        send.mkEscapedURL L true (String.mk (c :: rest)) args := by
      unfold send.mkURL
      split
      · rename_i heq
        cases heq
      · rename_i r heq
        simp only [List.cons.injEq] at heq
        exact absurd heq.1 hc
      · rfl
    rw [hm]
    simp [send.mkEscapedURL, opts_eq_map_operand L true args h]
  have hbang : ∀ rest : List Char,
      send.mkURL L (String.mk ('!' :: rest)) args =
        .ok (L.Parse (L.Sprintf (String.mk rest) (args.map (Spec.operand L false)))) := by
    intro rest
    have hm : send.mkURL L (String.mk ('!' :: rest)) args =
        send.mkEscapedURL L false (String.mk rest) args := rfl
    rw [hm]
    simp [send.mkEscapedURL, opts_eq_map_operand L false args h]
  refine ⟨hplain, hbang, fun x => ⟨rfl, rfl⟩, fun s => ⟨rfl, rfl⟩, fun v escape => rfl, ?_, ?_⟩
  · intro c rest method cat addr hc hparse hs
    have hm := hplain c rest hc
    rw [hparse] at hm
    exact URL_of_mkURL L method _ args cat addr hm hs
  · intro rest method cat addr hparse hs
    have hm := hbang rest
    rw [hparse] at hm
    exact URL_of_mkURL L method _ args cat addr hm hs

/-- C16, amended, at the argument `"a b"`: the template `"http://h/%v"` hands
`"http://h/a%20b"` to `url.Parse`, the template `"!http://h/%v"` hands it
`"http://h/a b"`, and the arrow installs the URL parsed from that text. -/
theorem URL_escaping_toggle_witness :
    send.mkURL fixture.lib "http://h/%v" [.other (.str "a b")] =
      .ok (fixture.lib.Parse "http://h/a%20b") ∧
    send.mkURL fixture.lib "!http://h/%v" [.other (.str "a b")] =
      .ok (fixture.lib.Parse "http://h/a b") ∧
    ∃ res up, send.URL fixture.lib "GET" "http://h/%v" [.other (.str "a b")] fixture.fresh =
        .ok res ∧ Spec.outbound res = some up ∧
      up.URL = { Scheme := "http", Host := "h", Path := "/a b", RawPath := "", RawQuery := "",
                 Fragment := "" } :=
  have hp : ∀ a ∈ [send.Arg.other (.str "a b")], Spec.present a := by
    intro a ha
    rw [List.mem_singleton] at ha
    subst ha
    trivial
  ⟨(@URL_escaping_toggle fixture.Transport fixture.lib [.other (.str "a b")] hp).1 'h'
      "ttp://h/%v".data (by decide),
   (@URL_escaping_toggle fixture.Transport fixture.lib [.other (.str "a b")] hp).2.1
      "http://h/%v".data,
   (@URL_escaping_toggle fixture.Transport fixture.lib [.other (.str "a b")] hp).2.2.2.2.2.1 'h'
      "ttp://h/%v".data "GET" fixture.fresh _ (by decide) rfl (by decide)⟩

/-- C20. A successful `URL` arrow replaces the outbound request wholesale. When
the template yields an `http` or `https` URL, the outbound request of the
returned context has the given method, the parsed URL, an empty header map and
an empty payload, whatever was bound before; the inbound response, the log
level and the transport action are as before, and failure is not set. -/
theorem URL_replaces_outbound (L : Stdlib) (method uri : String) (args : List send.Arg)
    (cat : IOCat σ) (addr : url.URL)
    (h : send.mkURL L uri args = .ok (.ok addr))
    (hs : addr.Scheme = "http" ∨ addr.Scheme = "https") :
    ∃ c, send.URL L method uri args cat = .ok c ∧
      Spec.outbound c = some { Method := method, URL := addr, Header := [], Payload := some [] } ∧
      Spec.inbound c = Spec.inbound cat ∧ c.LogLevel = cat.LogLevel ∧
      c.sideEffect = cat.sideEffect ∧ c.calls = cat.calls ∧ c.Fail = none := by
  have key : send.URL L method uri args cat =
      .ok { cat with
            Fail := none
            HTTP := some
              { Send := some { Method := method, URL := addr, Header := [], Payload := some [] }
                Recv := Spec.inbound cat } } := by
    cases hh : cat.HTTP <;> simp [send.URL, h, hs, Spec.inbound, hh]
  exact ⟨_, key, by simp [Spec.outbound], by simp [Spec.inbound], rfl, rfl, rfl, rfl⟩

/-- C20 at a context that has an `accept` header and an inbound response:
`POST` installs a request without headers and keeps the response. -/
theorem URL_replaces_outbound_witness :
    ∃ c, send.POST fixture.lib "https://example.com/form" [] (fixture.answered "/json" 1) = .ok c ∧
      Spec.outbound c = some
        { Method := "POST"
          URL := { Scheme := "https", Host := "example.com", Path := "/form", RawPath := "",
                   RawQuery := "", Fragment := "" }
          Header := []
          Payload := some [] } ∧
      Spec.inbound c = some (fixture.mock "/json") :=
  (URL_replaces_outbound fixture.lib "POST" "https://example.com/form" []
    (fixture.answered "/json" 1) _ rfl (by decide)).elim (fun c h => ⟨c, h.1, h.2.1, h.2.2.1⟩)

end Template

/-! ## The query arrow `Params` -/

section Query
open assay

variable {σ : Type}

theorem Values_index_Add (q : url.Values) (k v j : String) :
    (q.Add k v).index j = if j = k then q.index k ++ [v] else q.index j := by
  induction q with
  | nil =>
    by_cases h : j = k
    · simp [url.Values.Add, url.Values.index, h]
    · have h2 : ¬ k = j := fun h3 => h h3.symm
      simp [url.Values.Add, url.Values.index, h, h2]
  | cons kv rest ih =>
    obtain ⟨k', vs⟩ := kv
    by_cases hk : k' = k
    · subst hk
      by_cases h : j = k'
      · subst h
        simp [url.Values.Add, url.Values.index]
      · have h2 : ¬ k' = j := fun h3 => h h3.symm
        simp [url.Values.Add, url.Values.index, h, h2]
    · by_cases h : j = k
      · subst h
        simp [url.Values.Add, url.Values.index, hk, ih]
      · by_cases h3 : k' = j
        · simp [url.Values.Add, url.Values.index, hk, h, h3]
        · simp [url.Values.Add, url.Values.index, hk, h, h3, ih]

theorem Values_index_fold_Add (req : List (String × String)) (q : url.Values) (k : String) :
    (req.foldl (fun q kv => q.Add kv.1 kv.2) q).index k = q.index k ++ Spec.added req k := by
  induction req generalizing q with
  | nil => simp [Spec.added]
  | cons kv rest ih =>
    obtain ⟨a, b⟩ := kv
    rw [List.foldl_cons, ih, Values_index_Add]
    by_cases h : k = a
    · subst h
      simp [Spec.added]
    · have h2 : ¬ a = k := fun h3 => h h3.symm
      simp [Spec.added, h, h2]

/-- C17. `Params` merges flat query pairs and rejects nested values. On a
context with an outbound request: when the query value serializes to a flat
string map `req`, `Params` returns the context with the query string of the
outbound URL replaced by the encoding of values `q` in which every key holds
the values it had in the query of the URL followed by the values that `req`
gives it, so every pair present before and every pair of `req` is there, and
nothing else of the context, failure included, is changed. When `json.Marshal`
or the reading as a flat string map fails, `Params` returns the context with
failure set to that error and the outbound URL unchanged. -/
theorem Params_merges_flat_pairs (L : Stdlib) (cat : IOCat σ) (http : IOCatHTTP)
    (up : UpStreamHTTP) (query : Value)
    (hhttp : cat.HTTP = some http) (hsend : http.Send = some up) :
    (∀ bytes req, L.Marshal query = .ok bytes → L.UnmarshalMap bytes = .ok req →
      ∃ q : url.Values,
        send.Params L query cat =
          .ok { cat with
                HTTP := some { http with
                  Send := some { up with URL := { up.URL with RawQuery := L.Encode q } } } } ∧
        (∀ k, q.index k = (L.Query up.URL).index k ++ Spec.added req k) ∧
        (∀ k v, v ∈ (L.Query up.URL).index k → v ∈ q.index k) ∧
        (∀ k v, (k, v) ∈ req → v ∈ q.index k)) ∧
    (∀ err, L.Marshal query = .error err →
      send.Params L query cat = .ok { cat with Fail := some err }) ∧
    (∀ bytes err, L.Marshal query = .ok bytes → L.UnmarshalMap bytes = .error err →
      send.Params L query cat = .ok { cat with Fail := some err }) := by
  refine ⟨?_, ?_, ?_⟩
  · intro bytes req hm hu
    refine ⟨req.foldl (fun q kv => q.Add kv.1 kv.2) (L.Query up.URL), ?_, ?_, ?_, ?_⟩
    · simp [send.Params, hm, hu, hhttp, hsend]
    · intro k
      exact Values_index_fold_Add req _ k
    · intro k v hv
      rw [Values_index_fold_Add]
      exact List.mem_append_left _ hv
    · intro k v hkv
      rw [Values_index_fold_Add]
      apply List.mem_append_right
      simp only [Spec.added, List.mem_map, List.mem_filter]
      exact ⟨(k, v), ⟨hkv, by simp⟩, rfl⟩
  · intro err hm
    simp [send.Params, hm]
  · intro bytes err hm hu
    simp [send.Params, hm, hu]

/-- C17 at the request `GET http://example.com/json?a=1`: `Params` of a flat
object with the field `site` makes the query `a=1&site=example.com`, and
`Params` of a nested object sets the failure of `json.Unmarshal`. -/
theorem Params_merges_flat_pairs_witness :
    (∃ c up, send.Params fixture.lib (.obj [("site", .str "example.com")]) fixture.queried =
        .ok c ∧ Spec.outbound c = some up ∧ up.URL.RawQuery = "a=1&site=example.com" ∧
        c.Fail = none) ∧
    send.Params fixture.lib (.obj [("site", .obj [("host", .str "example.com")])])
        fixture.queried =
      .ok { fixture.queried with
            Fail := some (.external "encoding/json" "json: cannot unmarshal") } :=
  ⟨⟨_, _, rfl, rfl, rfl, rfl⟩,
   (Params_merges_flat_pairs fixture.lib fixture.queried _ _
      (.obj [("site", .obj [("host", .str "example.com")])]) rfl rfl).2.2 _ _ rfl rfl⟩

end Query

/-! ## The constructor and the empty set of codes -/

section Constructor
open assay

variable {σ : Type}

theorem foldlM_eq_fold (opts : List (Config σ)) (cat : IOCat σ) :
    opts.foldlM (fun cat opt => opt cat) cat = Spec.fold opts cat := by
  induction opts generalizing cat with
  | nil => rfl
  | cons opt rest ih =>
    rw [List.foldlM_cons]
    cases h : opt cat with
    | error p => simp [Spec.fold, h, bind, Except.bind]
    | ok mid => simp [Spec.fold, h, bind, Except.bind, ih]

/-- C18. The constructor applies the options in order to a fresh context.
`IO(opts...)` is the left-to-right application of every option, each receiving
the context returned by the one before it, from a new context with no failure,
no outbound or inbound state and no transport action; one more option at the
end is applied to the result of the others; `IO()` returns the new context. -/
theorem IOWith_applies_options (opts : List (Config σ)) :
    IOWith opts = Spec.fold opts IOCat.zero ∧
    (∀ opt : Config σ, IOWith (opts ++ [opt]) =
      match IOWith opts with
      | .error p => .error p
      | .ok cat => opt cat) ∧
    IOWith ([] : List (Config σ)) = .ok IOCat.zero ∧
    (IOCat.zero : IOCat σ).Fail = none ∧ (IOCat.zero : IOCat σ).HTTP = none ∧
    (IOCat.zero : IOCat σ).sideEffect = none := by
  refine ⟨foldlM_eq_fold opts IOCat.zero, ?_, rfl, rfl, rfl, rfl⟩
  intro opt
  unfold IOWith
  rw [List.foldlM_append]
  cases h : opts.foldlM (fun cat opt => opt cat) (IOCat.zero : IOCat σ) with
  | error p => simp [bind, Except.bind]
  | ok cat =>
    simp only [bind, Except.bind, List.foldlM_cons, List.foldlM_nil, pure, Except.pure]
    cases opt cat <;> rfl

/-- C19. `Code` with no expected code rejects every response. When the
transport action of the context returns, without failure, a context with an
inbound response of any status, `Code()` returns that context with failure set
to `"do not match"`; it does not panic. -/
theorem Code_empty_rejects (run : σ → Arrow σ) (cat mid : IOCat σ) (f : σ)
    (http : IOCatHTTP) (resp : DnStreamHTTP)
    (hf : cat.sideEffect = some f) (hrun : run f cat = .ok mid) (hmid : mid.Fail = none)
    (hhttp : mid.HTTP = some http) (hresp : http.Recv = some resp) :
    recv.Code run [] cat =
      .ok { mid with calls := cat.calls + 1, Fail := some (.text "do not match") } := by
  unfold recv.Code IOCat.Unsafe
  simp [hf, hrun, hmid, hhttp, hresp, recv.hasCode]

/-- C19 at the request of `TestCodeOk`: the mock server answers 200 and `Code()`
fails. -/
theorem Code_empty_rejects_witness :
    recv.Code fixture.run [] (fixture.asked "/json") =
      .ok { fixture.answered "/json" 1 with Fail := some (.text "do not match") } :=
  Code_empty_rejects fixture.run (fixture.asked "/json") (fixture.answered "/json" 0) .pool _
    (fixture.mock "/json") rfl rfl rfl rfl rfl

end Constructor
